import Mathlib

/-!
Verification development for the mine_land repository (authoritative game
server of a multiplayer minesweeper variant).

The repository ships two server implementations of the game rules:

* the ECS pipeline (GameManager.ts, systems/GameLogicSystem.ts including the
  MovementSystem, systems/NetworkSystem.ts, registries, security/RateLimiter.ts),
  exercised by the jest test-suites, and
* the legacy monolithic server (index.ts), which wires the same rules directly
  to the network transport.

Both are embedded below, each definition translated from the corresponding
TypeScript function.  Machine numbers of the source are IEEE doubles holding
small integers; they are modelled as Int (the one floating-point expression,
the obfuscated mine-progress percentage, is modelled as exact rational
arithmetic and noted at its definition).  JavaScript Map objects keyed by
position or player id are modelled as association lists with unique keys.
-/

/-- Tile kinds, from the TileType union of components/TileComponent.ts and
index.ts (covered, empty, numbered, mine, flag_token, explosion). -/
inductive TileType where
  | covered
  | empty
  | numbered
  | mine
  | flagToken
  | explosion
deriving DecidableEq, Repr

/-- Tile record, from the TileComponent interface of
components/TileComponent.ts; the Tile interface of index.ts has the identical
fields.  The optional exploded field is created as false by
createTileComponent and only ever compared against truthiness, so it is
modelled as a Bool that defaults to false. -/
structure Tile where
  type : TileType
  revealed : Bool
  flagged : Bool
  flaggedBy : Option String := none
  number : Option Int := none
  exploded : Bool := false
deriving DecidableEq, Repr

/-- Player record, from the PlayerComponent interface of
components/PlayerComponent.ts. -/
structure PlayerComponent where
  id : String
  username : String
  score : Int
  flags : Int
  alive : Bool
  connected : Bool
  color : Option String := none
  sessionId : Option String := none
deriving DecidableEq, Repr

/-- Position record, from components/PositionComponent.ts. -/
structure PositionComponent where
  x : Int
  y : Int
deriving DecidableEq, Repr

/-- A grid position (the string keys of the registries are built from the two
coordinates, so a pair is the faithful key type). -/
abbrev Pos := Int × Int

/-- The tile registry of registries/TileRegistry.ts: a Map from position key
to tile entity.  Map keys are unique; the list below is kept duplicate-free by
the registerTile guard of the generation code. -/
abbrev TileList := List (Pos × Tile)

/-- Lookup in the tile registry (TileRegistry.getTileEntity /
TileRegistry.getTileData). -/
def getTileL (l : TileList) (p : Pos) : Option Tile :=
  (l.find? (fun e => e.1 == p)).map (fun e => e.2)

/-- TileRegistry.hasTile. -/
def hasTileL (l : TileList) (p : Pos) : Bool :=
  (getTileL l p).isSome

/-- In-place mutation of the tile entity found at a key: the first (unique)
entry with that key is replaced. -/
def setTileL : TileList → Pos → Tile → TileList
  | [], _, _ => []
  | e :: rest, p, t => if e.1 == p then (p, t) :: rest else e :: setTileL rest p t

/-- TileRegistry.registerTile: replace an existing entity at the key, else add
the tile under the (new) key. -/
def registerTile (l : TileList) (p : Pos) (t : Tile) : TileList :=
  if hasTileL l p then setTileL l p t else l ++ [(p, t)]

/-- The player registry of registries/PlayerRegistry.ts: player id to entity
(the entity holds a player component and a position component). -/
abbrev PlayerList := List (PlayerComponent × PositionComponent)

/-- PlayerRegistry.getPlayerEntity. -/
def findPlayer (l : PlayerList) (pid : String) : Option (PlayerComponent × PositionComponent) :=
  l.find? (fun e => e.1.id == pid)

/-- In-place mutation of the entity bound to a player id (ids are unique map
keys, so mutating through the found reference updates exactly the entries
whose id matches). -/
def updatePlayer (l : PlayerList) (pid : String)
    (f : PlayerComponent × PositionComponent → PlayerComponent × PositionComponent) : PlayerList :=
  l.map (fun e => if e.1.id == pid then f e else e)

/-- Shared world state of the ECS server: the two registries plus the mine
count cache of GameLogicSystem (totalMines, flaggedMines). -/
structure GameLogicState where
  tiles : TileList
  players : PlayerList
  totalMines : Int
  flaggedMines : Int
deriving Repr

def setGsTile (gs : GameLogicState) (p : Pos) (t : Tile) : GameLogicState :=
  { gs with tiles := setTileL gs.tiles p t }

def updateGsPlayer (gs : GameLogicState) (pid : String)
    (f : PlayerComponent × PositionComponent → PlayerComponent × PositionComponent) : GameLogicState :=
  { gs with players := updatePlayer gs.players pid f }

/-- Bounds check, from GameLogicSystem.isValidPosition (identical in
MovementSystem and index.ts): 0 <= x < WORLD_SIZE and 0 <= y < WORLD_SIZE. -/
def isValidPosition (W x y : Int) : Bool :=
  decide (0 ≤ x ∧ x < W ∧ 0 ≤ y ∧ y < W)

/-- List of the integers a..b in order (the iteration space of a JS for loop
from a to b inclusive). -/
def intRange (a b : Int) : List Int :=
  (List.range (b - a + 1).toNat).map (fun (i : Nat) => a + (i : Int))


/-! ## IEEE 754 double-precision rounding

The one floating-point computation of the game logic whose result reaches
clients is getObfuscatedMineProgress, which evaluates
Math.floor((flaggedMines / totalMines) * 100) in JavaScript number
arithmetic: the division rounds its exact quotient to the nearest IEEE 754
binary64 double (round to nearest, ties to even), the multiplication rounds
the exact product the same way, and Math.floor is exact.  The model below
implements that rounding on exact integer pairs: a positive rational given as
numerator and denominator is scaled into the binade [2^52, 2^53), the scaled
mantissa is rounded to the nearest integer (ties to even) and reattached to
its power-of-two exponent.  Every value the game feeds to it (ratios of tile
counters in [0, 1] and their hundredfolds) lies well inside the normal range
of binary64, so neither subnormals nor overflow arise, and the integer
counters themselves are far below 2^53 and hence exact doubles. -/

/-- Fuel-driven binary logarithm (the fuel argument makes the recursion
structural). -/
def natLog2Rec : ℕ → ℕ → ℕ
  | 0, _ => 0
  | fuel+1, n => if 2 ≤ n then natLog2Rec fuel (n / 2) + 1 else 0

/-- The binary logarithm, n itself being more than enough fuel. -/
def natLog2 (n : ℕ) : ℕ := natLog2Rec n n

/-- Whether a/b is at least 2^x (a, b positive naturals), decided exactly in
integer arithmetic. -/
def qGePow (a b : ℕ) (x : Int) : Bool :=
  if 0 ≤ x then decide (b * 2 ^ x.toNat ≤ a) else decide (b ≤ a * 2 ^ (-x).toNat)

/-- The binade exponent of a/b: the unique e with 2^e ≤ a/b < 2^(e+1), for
positive a and b.  The estimate from the two bit lengths is at most one too
high and is corrected by an exact comparison. -/
def flExp (a b : ℕ) : Int :=
  if qGePow a b ((natLog2 a : Int) - (natLog2 b : Int)) then
    (natLog2 a : Int) - (natLog2 b : Int)
  else (natLog2 a : Int) - (natLog2 b : Int) - 1

def flScaleN (a b : ℕ) : ℕ := a * 2 ^ (52 - flExp a b).toNat

def flScaleD (a b : ℕ) : ℕ := b * 2 ^ (flExp a b - 52).toNat

def roundNearestEven (N D : ℕ) : ℕ :=
  if 2 * (N % D) < D then N / D
  else if D < 2 * (N % D) then N / D + 1
  else if (N / D) % 2 = 0 then N / D else N / D + 1

def fl53Pos (a b : ℕ) : ℚ :=
  (roundNearestEven (flScaleN a b) (flScaleD a b) : ℚ) * (2:ℚ) ^ (flExp a b - 52)

/-- a/b rounded to the nearest double, as a mantissa and a power-of-two
exponent (the pair m, e stands for the value m * 2^e). -/
def flRoundPair (a b : ℕ) : ℕ × Int :=
  (roundNearestEven (flScaleN a b) (flScaleD a b), flExp a b - 52)

/-- The exact product of a double (given as mantissa and exponent) with 100,
as a ratio of two naturals. -/
def flTimes100 (p : ℕ × Int) : ℕ × ℕ :=
  (100 * p.1 * 2 ^ p.2.toNat, 2 ^ (-p.2).toNat)

/-- Math.floor of a double given as mantissa and exponent. -/
def flFloor (p : ℕ × Int) : Int :=
  (p.1 : Int) * 2 ^ p.2.toNat / 2 ^ (-p.2).toNat

/-- Math.floor((f / t) * 100) computed as JavaScript computes it: the division
rounds its exact quotient to the nearest binary64 double, the multiplication
by 100 rounds the exact product to the nearest double, the floor is exact. -/
def floorDoubleProgress (f t : Int) : Int :=
  flFloor (flRoundPair (flTimes100 (flRoundPair f.toNat t.toNat)).1
    (flTimes100 (flRoundPair f.toNat t.toNat)).2)

namespace GameLogicSystem

/-- GameLogicSystem.isAdjacent: Chebyshev distance at most 1 and not the same
tile (diagonals allowed for tile interactions). -/
def isAdjacent (x1 y1 x2 y2 : Int) : Bool :=
  let deltaX := (x1 - x2).natAbs
  let deltaY := (y1 - y2).natAbs
  decide (deltaX ≤ 1) && decide (deltaY ≤ 1) && !(deltaX == 0 && deltaY == 0)

/-- The dx/dy iteration space of GameLogicSystem.handleExplosion: the square
[-2,2] x [-2,2]; the circular radius test happens inside the loop body. -/
def explosionOffsets : List Pos :=
  (intRange (-2) 2).flatMap (fun dx => (intRange (-2) 2).map (fun dy => (dx, dy)))

/-- One iteration of the explosion loop of GameLogicSystem.handleExplosion:
skip offsets outside the circular radius (Math.sqrt(dx*dx+dy*dy) > 2, which on
integers is dx*dx+dy*dy > 4); inside the radius and the world bounds, reveal
and mark the tile exploded (non-center tiles also become explosion tiles) and
kill every alive player standing on that position. -/
def explosionStep (W x y : Int) (gs : GameLogicState) (d : Pos) : GameLogicState :=
  if d.1 * d.1 + d.2 * d.2 > 4 then gs
  else
    let explosionX := x + d.1
    let explosionY := y + d.2
    if isValidPosition W explosionX explosionY then
      let gs1 :=
        match getTileL gs.tiles (explosionX, explosionY) with
        | none => gs
        | some t =>
          let isCenterTile := explosionX == x && explosionY == y
          let t1 := if isCenterTile then t else { t with type := TileType.explosion }
          setGsTile gs (explosionX, explosionY) { t1 with revealed := true, exploded := true }
      { gs1 with
        players := gs1.players.map (fun e =>
          if e.1.alive && e.2.x == explosionX && e.2.y == explosionY then
            ({ e.1 with alive := false }, e.2)
          else e) }
    else gs

/-- GameLogicSystem.handleExplosion: kill the triggering player, then run the
circular-radius loop.  The affectedTiles/killedPlayers arrays it returns are
broadcast payload only; the state effects are modelled here. -/
def handleExplosion (W : Int) (gs : GameLogicState) (x y : Int) (pid : String) : GameLogicState :=
  let gs0 := { gs with
    players := gs.players.map (fun e =>
      if e.1.id == pid && e.1.alive then ({ e.1 with alive := false }, e.2) else e) }
  explosionOffsets.foldl (explosionStep W x y) gs0

/-- GameLogicSystem.handleTileFlip.  The final score award re-reads the
original tile component, whose type field is never changed by the reveal (the
explosion keeps the center tile a mine), so it tests the pre-flip type. -/
def handleTileFlip (W : Int) (gs : GameLogicState) (pid : String) (x y : Int) : GameLogicState :=
  match getTileL gs.tiles (x, y) with
  | none => gs
  | some tileComp =>
    if tileComp.revealed || tileComp.flagged then gs
    else
      match findPlayer gs.players pid with
      | none => gs
      | some _ =>
        let gs1 := setGsTile gs (x, y) { tileComp with revealed := true }
        let gs2 :=
          if tileComp.type = TileType.mine then
            handleExplosion W gs1 x y pid
          else if tileComp.type = TileType.flagToken then
            updateGsPlayer gs1 pid (fun e =>
              ({ e.1 with flags := e.1.flags + 1, score := e.1.score + 1 }, e.2))
          else gs1
        if tileComp.type ≠ TileType.mine then
          updateGsPlayer gs2 pid (fun e => ({ e.1 with score := e.1.score + 1 }, e.2))
        else gs2

/-- GameLogicSystem.handleTileFlag.  The source handler returns void; the Bool
marks whether the guarded mutation branch ran (the flag was placed). -/
def handleTileFlag (gs : GameLogicState) (pid : String) (x y : Int) :
    Bool × GameLogicState :=
  match getTileL gs.tiles (x, y) with
  | none => (false, gs)
  | some tileComp =>
    if tileComp.revealed || tileComp.flagged then (false, gs)
    else
      match findPlayer gs.players pid with
      | none => (false, gs)
      | some (playerComp, _) =>
        if playerComp.flags ≤ 0 then (false, gs)
        else
          let gs1 := setGsTile gs (x, y)
            { tileComp with flagged := true, flaggedBy := some pid }
          let gs2 := updateGsPlayer gs1 pid (fun e =>
            ({ e.1 with flags := e.1.flags - 1 }, e.2))
          let gs3 :=
            if tileComp.type = TileType.mine then
              { (updateGsPlayer gs2 pid (fun e =>
                  ({ e.1 with score := e.1.score + 3 }, e.2))) with
                flaggedMines := gs2.flaggedMines + 1 }
            else gs2
          (true, gs3)

/-- GameLogicSystem.handleTileUnflag: flags cannot be removed once placed; the
handler only logs and performs no mutation. -/
def handleTileUnflag (gs : GameLogicState) (_pid : String) (_x _y : Int) : GameLogicState :=
  gs

inductive TileAction where
  | flip
  | flag
  | unflag
deriving DecidableEq, Repr

/-- GameLogicSystem.processTileAction. -/
def processTileAction (W : Int) (gs : GameLogicState) (pid : String) (x y : Int)
    (action : TileAction) : GameLogicState :=
  match action with
  | TileAction.flip => handleTileFlip W gs pid x y
  | TileAction.flag => (handleTileFlag gs pid x y).2
  | TileAction.unflag => handleTileUnflag gs pid x y

/-- GameLogicSystem.requestTileAction: position, adjacency, aliveness and
flag-inventory gates, then the action is processed immediately and the request
is reported accepted (the source returns true after processTileAction). -/
def requestTileAction (W : Int) (gs : GameLogicState) (pid : String) (x y : Int)
    (action : TileAction) : Bool × GameLogicState :=
  match findPlayer gs.players pid with
  | none => (false, gs)
  | some (playerComp, playerPos) =>
    if !isValidPosition W x y then (false, gs)
    else if !isAdjacent playerPos.x playerPos.y x y then (false, gs)
    else if !playerComp.alive then (false, gs)
    else if action = TileAction.flag ∧ playerComp.flags ≤ 0 then (false, gs)
    else (true, processTileAction W gs pid x y action)

/-- GameLogicSystem.initializeMineCountsCache: totalMines counts the mine
tiles, flaggedMines the flagged mine tiles, over all registered tile data. -/
def initializeMineCountsCache (gs : GameLogicState) : GameLogicState :=
  { gs with
    totalMines := (gs.tiles.countP (fun e => e.2.type == TileType.mine) : Int),
    flaggedMines := (gs.tiles.countP (fun e => e.2.type == TileType.mine && e.2.flagged) : Int) }

/-- GameLogicSystem.checkGameEnd (on an initialized cache). -/
def checkGameEnd (gs : GameLogicState) : Bool :=
  decide (gs.totalMines - gs.flaggedMines ≤ 0)

/-- GameLogicSystem.getObfuscatedMineProgress (on an initialized cache):
Math.floor((flaggedMines / totalMines) * 100), with the division and the
multiplication each rounding to the nearest binary64 double as JavaScript
does, and Math.floor exact. -/
def getObfuscatedMineProgress (gs : GameLogicState) : Int :=
  if 0 < gs.totalMines then floorDoubleProgress gs.flaggedMines gs.totalMines else 0

end GameLogicSystem

namespace MovementSystem

/-- MovementSystem.isAdjacent: orthogonal single-step moves only. -/
def isAdjacent (x1 y1 x2 y2 : Int) : Bool :=
  let deltaX := (x1 - x2).natAbs
  let deltaY := (y1 - y2).natAbs
  (deltaX == 1 && deltaY == 0) || (deltaX == 0 && deltaY == 1)

/-- MovementSystem.isTileWalkable: out of bounds is not walkable; a missing
tile entity is walkable; covered (neither revealed nor flagged) is not
walkable; a revealed mine is not walkable; everything else is walkable. -/
def isTileWalkable (W : Int) (tiles : TileList) (x y : Int) : Bool :=
  if !isValidPosition W x y then false
  else
    match getTileL tiles (x, y) with
    | none => true
    | some tileComp =>
      if !tileComp.revealed && !tileComp.flagged then false
      else if tileComp.revealed && tileComp.type == TileType.mine then false
      else true

/-- MovementSystem.requestMovement followed by its processMovement: the
validation gates in source order, then the position update. -/
def requestMovement (W : Int) (gs : GameLogicState) (pid : String) (targetX targetY : Int) :
    Bool × GameLogicState :=
  match findPlayer gs.players pid with
  | none => (false, gs)
  | some (playerComp, posComp) =>
    if !isValidPosition W targetX targetY then (false, gs)
    else if !isAdjacent posComp.x posComp.y targetX targetY then (false, gs)
    else if !isTileWalkable W gs.tiles targetX targetY then (false, gs)
    else if !playerComp.alive then (false, gs)
    else
      (true, updateGsPlayer gs pid (fun e => (e.1, { x := targetX, y := targetY })))

end MovementSystem

namespace Legacy

/-- Player record of index.ts. -/
structure Player where
  id : String
  x : Int
  y : Int
  username : String
  score : Int
  flags : Int
  alive : Bool
  connected : Bool
  color : Option String := none
deriving DecidableEq, Repr

/-- The legacy world of index.ts: a dense WORLD_SIZE x WORLD_SIZE array of
tiles; every in-bounds position holds a tile, so the grid is a total function
that is only consulted at valid positions. -/
abbrev World := Pos → Tile

def setWorld (w : World) (p : Pos) (t : Tile) : World :=
  fun q => if q = p then t else w q

/-- Squared Euclidean distance.  index.ts compares
Math.sqrt((px-x)**2 + (py-y)**2) <= 3; since square root is exact on these
comparisons (the operands are integers and sqrt is correctly rounded and
monotone with sqrt 9 = 3), the test is equivalent to the squared distance
being at most 9. -/
def distSq (px py x y : Int) : Int :=
  (px - x) * (px - x) + (py - y) * (py - y)

/-- State accumulated by the explosion loop of index.ts handleExplosion. -/
structure ExploState where
  world : World
  affected : List Pos
  scheduled : List Pos

/-- One iteration of the dx/dy loop of index.ts handleExplosion (3-tile
radius): inside the circle dx*dx+dy*dy <= 9 and the world bounds, reveal the
tile if it was not yet revealed; a revealed mine that was not yet exploded is
marked exploded and a recursive handleExplosion is scheduled for it via
setTimeout(.., 100) - the scheduled list records those calls. -/
def explodeStep (W x y : Int) (st : ExploState) (d : Pos) : ExploState :=
  if d.1 * d.1 + d.2 * d.2 ≤ 9 then
    let nx := x + d.1
    let ny := y + d.2
    if isValidPosition W nx ny then
      let tile := st.world (nx, ny)
      if !tile.revealed then
        let st1 := { st with
          world := setWorld st.world (nx, ny) { tile with revealed := true },
          affected := st.affected ++ [(nx, ny)] }
        if tile.type = TileType.mine ∧ tile.exploded = false then
          { st1 with
            world := setWorld st1.world (nx, ny) { tile with revealed := true, exploded := true },
            scheduled := st1.scheduled ++ [(nx, ny)] }
        else st1
      else st
    else st
  else st

/-- The dx/dy iteration space of index.ts handleExplosion: the square
[-3,3] x [-3,3] in loop order; the circle test happens inside the body. -/
def explodeOffsets : List Pos :=
  (intRange (-3) 3).flatMap (fun dx => (intRange (-3) 3).map (fun dy => (dx, dy)))

/-- Result of a single index.ts handleExplosion call: the updated grid and
player set, the affected-tile list, the chained explosions scheduled 100 ms
later, and the killed player ids (the broadcast payload). -/
structure ExplosionResult where
  world : World
  players : List Player
  affectedTiles : List Pos
  scheduled : List Pos
  killedPlayers : List String

/-- index.ts handleExplosion: run the 3-radius reveal loop (scheduling a
100 ms recursive explosion for each not-yet-exploded mine it reveals), kill
every alive player within Euclidean distance 3 of the origin, then mark the
origin tile as an exploded explosion tile. -/
def handleExplosion (W : Int) (world : World) (players : List Player) (x y : Int) :
    ExplosionResult :=
  let st := explodeOffsets.foldl (explodeStep W x y) ⟨world, [], []⟩
  let playersAfter := players.map (fun p =>
    if distSq p.x p.y x y ≤ 9 ∧ p.alive then { p with alive := false } else p)
  let killed := (players.filter (fun p => decide (distSq p.x p.y x y ≤ 9) && p.alive)).map
    (fun p => p.id)
  let origin := st.world (x, y)
  { world := setWorld st.world (x, y) { origin with type := TileType.explosion, exploded := true },
    players := playersAfter,
    affectedTiles := st.affected,
    scheduled := st.scheduled,
    killedPlayers := killed }

/-- index.ts handleTileUnflag: flags cannot be removed once placed; the
handler returns false without reading or writing any state. -/
def handleTileUnflag (_playerId : String) (_x _y : Int) : Bool :=
  false

end Legacy

namespace RateLimiter

/-- security/RateLimiter.ts ActionRecord (the data payload plays no role in
the limiting logic). -/
structure ActionRecord where
  timestamp : Int
  action : String
deriving DecidableEq, Repr

/-- security/RateLimiter.ts RateLimitConfig. -/
structure RateLimitConfig where
  windowMs : Int
  maxActions : Nat
deriving DecidableEq, Repr

/-- The default rate-limit table installed by the RateLimiter constructor. -/
def getConfig (actionType : String) : Option RateLimitConfig :=
  if actionType = "move" then some ⟨1000, 10⟩
  else if actionType = "flip" then some ⟨1000, 5⟩
  else if actionType = "flag" then some ⟨1000, 5⟩
  else if actionType = "unflag" then some ⟨1000, 5⟩
  else if actionType = "general" then some ⟨1000, 20⟩
  else none

/-- RateLimiter.checkLimit.  Counts the in-window records matching the action
type ("any" matches all).  In the "any" case the source then runs
history.splice(0, history.length) followed by
history.push(...history.filter(r => r.timestamp >= windowStart)); the splice
empties the array before the filter reads it, so the push appends nothing and
the surviving history is empty.  Returns the admission verdict together with
the history array as the call leaves it. -/
def checkLimit (history : List ActionRecord) (actionType : String)
    (config : RateLimitConfig) (now : Int) : Bool × List ActionRecord :=
  let windowStart := now - config.windowMs
  let recentActions := history.filter (fun r =>
    decide (windowStart ≤ r.timestamp) &&
    (actionType == "any" || r.action == actionType))
  let historyAfter := if actionType = "any" then ([] : List ActionRecord) else history
  (recentActions.length < config.maxActions, historyAfter)

/-- RateLimiter.isAllowed for one player: specific-type check, then the
general check, then (on admission) the action is recorded by pushing onto the
player history (which the general check has just emptied). -/
def isAllowed (history : List ActionRecord) (actionType : String) (now : Int) :
    Bool × List ActionRecord :=
  let afterSpecific :=
    match getConfig actionType with
    | some specificConfig => checkLimit history actionType specificConfig now
    | none => (true, history)
  if !afterSpecific.1 then (false, afterSpecific.2)
  else
    let afterGeneral := checkLimit afterSpecific.2 "any" ⟨1000, 20⟩ now
    if !afterGeneral.1 then (false, afterGeneral.2)
    else (true, afterGeneral.2 ++ [⟨now, actionType⟩])

/-- Run a sequence of (actionType, timestamp) requests through isAllowed,
collecting each verdict, starting from an empty per-player history. -/
def runRequests (requests : List (String × Int)) : List Bool × List ActionRecord :=
  requests.foldl
    (fun acc r =>
      let step := isAllowed acc.2 r.1 r.2
      (acc.1 ++ [step.1], step.2))
    ([], [])

end RateLimiter

namespace NetworkSystem

/-- A tile as sent to a client: the cached tile data joined with its position;
kind, number and exploded may be withheld (undefined). -/
structure ClientTile where
  x : Int
  y : Int
  type : TileType
  revealed : Bool
  flagged : Bool
  flaggedBy : Option String
  number : Option Int
  exploded : Option Bool
deriving DecidableEq, Repr

/-- NetworkSystem.sanitizeTileForClient, given the tile data (tile component
plus its position tx, ty) and the viewing player's position: the tile is sent
only if it is revealed, flagged, or within Chebyshev distance 1 of the player;
for unrevealed tiles the kind is reported as covered and number and exploded
are withheld. -/
def sanitizeTileForClient (tile : Tile) (tx ty : Int) (playerPos : PositionComponent) :
    Option ClientTile :=
  let isRevealed := tile.revealed
  let isFlagged := tile.flagged
  let isAdjacentToPlayer :=
    decide ((tx - playerPos.x).natAbs ≤ 1) && decide ((ty - playerPos.y).natAbs ≤ 1)
  if !isRevealed && !isFlagged && !isAdjacentToPlayer then none
  else
    some {
      x := tx,
      y := ty,
      revealed := tile.revealed,
      flagged := tile.flagged,
      flaggedBy := tile.flaggedBy,
      type := if isRevealed then tile.type else TileType.covered,
      number := if isRevealed then tile.number else none,
      exploded := if isRevealed then some tile.exploded else none }

end NetworkSystem

namespace GameManager

/-- A spawn point, from GameManager.gameState.spawnPoints. -/
structure SpawnPoint where
  x : Int
  y : Int
deriving DecidableEq, Repr

/-- Membership in the spawn-point set (the spawnSet of string keys built in
GameManager.generateWorld). -/
def spawnHas (spawns : List SpawnPoint) (p : Pos) : Bool :=
  spawns.any (fun s => s.x == p.1 && s.y == p.2)

/-- GameManager.isNearSpawnPoint: Manhattan distance at most 2 from some
spawn point. -/
def isNearSpawnPoint (spawns : List SpawnPoint) (x y : Int) : Bool :=
  spawns.any (fun s => decide ((x - s.x).natAbs + (y - s.y).natAbs ≤ 2))

/-- The tile record built by createTileEntity for a spawn point
(type empty, revealed true). -/
def spawnTile : Tile :=
  { type := TileType.empty, revealed := true, flagged := false }

/-- The tile record built by createTileEntity for a mine. -/
def mineTile : Tile :=
  { type := TileType.mine, revealed := false, flagged := false }

/-- The tile record built by createTileEntity for a flag token. -/
def flagTokenTile : Tile :=
  { type := TileType.flagToken, revealed := false, flagged := false }

/-- The tile record built by createTileEntity for an empty filler tile. -/
def emptyTile : Tile :=
  { type := TileType.empty, revealed := false, flagged := false }

/-- The tile record built by createTileEntity for a numbered tile. -/
def numberedTile (n : Int) : Tile :=
  { type := TileType.numbered, revealed := false, flagged := false, number := some n }

/-- The mine-placement loop of GameManager.generateWorld.  The loop draws
uniform random coordinates until MINE_COUNT mines are placed; the candidate
list is the (finite) sequence of draws of a completed run, and each candidate
is accepted exactly under the source's test: not a spawn point, not within
Manhattan distance 2 of a spawn point, and not already occupied. -/
def placeMines (spawns : List SpawnPoint) (candidates : List Pos) (l : TileList) : TileList :=
  candidates.foldl
    (fun l c =>
      if !spawnHas spawns c && !isNearSpawnPoint spawns c.1 c.2 && !hasTileL l c then
        registerTile l c mineTile
      else l)
    l

/-- The flag-token placement loop of GameManager.generateWorld: a candidate is
accepted if it is not a spawn point and not already occupied (occupied
includes every mine). -/
def placeFlagTokens (spawns : List SpawnPoint) (candidates : List Pos) (l : TileList) : TileList :=
  candidates.foldl
    (fun l c =>
      if !spawnHas spawns c && !hasTileL l c then registerTile l c flagTokenTile
      else l)
    l

/-- The 8-neighborhood offsets of GameManager.countAdjacentMines: dx, dy in
[-1,1] with the center skipped. -/
def neighborOffsets : List Pos :=
  ((intRange (-1) 1).flatMap (fun dx => (intRange (-1) 1).map (fun dy => (dx, dy)))).filter
    (fun d => !(d.1 == 0 && d.2 == 0))

/-- Whether the registry holds a mine at a position (the
tileData && tileData.type === 'mine' test of countAdjacentMines). -/
def mineAtB (l : TileList) (p : Pos) : Bool :=
  match getTileL l p with
  | some t => t.type == TileType.mine
  | none => false

/-- GameManager.countAdjacentMines: count the in-bounds neighbors holding a
mine; out-of-bounds coordinates count as non-mine. -/
def countAdjacentMines (W : Int) (l : TileList) (x y : Int) : Nat :=
  neighborOffsets.countP (fun d =>
    isValidPosition W (x + d.1) (y + d.2) && mineAtB l (x + d.1, y + d.2))

/-- The grid traversal order of GameManager.calculateNumbers (x outer, y
inner, each from 0 to WORLD_SIZE - 1). -/
def gridCoords (W : Int) : List Pos :=
  (intRange 0 (W - 1)).flatMap (fun x => (intRange 0 (W - 1)).map (fun y => (x, y)))

/-- One step of the first pass of GameManager.calculateNumbers: skip occupied
tiles and spawn points; where at least one mine is adjacent, remember the
position and its count for the second pass; otherwise create an unrevealed
empty tile. -/
def firstPassStep (W : Int) (spawns : List SpawnPoint)
    (st : TileList × List (Pos × Nat)) (p : Pos) : TileList × List (Pos × Nat) :=
  if hasTileL st.1 p then st
  else if spawnHas spawns p then st
  else
    let mineCount := countAdjacentMines W st.1 p.1 p.2
    if 0 < mineCount then (st.1, st.2 ++ [(p, mineCount)])
    else (registerTile st.1 p emptyTile, st.2)

/-- GameManager.calculateNumbers: the first pass walks the grid recording
positions needing numbers and filling in empty tiles, the second pass creates
the numbered tiles. -/
def calculateNumbers (W : Int) (spawns : List SpawnPoint) (l : TileList) : TileList :=
  let st := (gridCoords W).foldl (firstPassStep W spawns) (l, [])
  st.2.foldl (fun l u => registerTile l u.1 (numberedTile (u.2 : Int))) st.1

/-- GameManager.generateWorld: reveal the spawn points, place the mines, place
the flag tokens, then compute the neighbor numbers.  The two candidate lists
are the coordinate draws of a completed run of the two rejection-sampling
loops. -/
def generateWorld (W : Int) (spawns : List SpawnPoint)
    (mineCandidates flagCandidates : List Pos) : TileList :=
  let l0 := spawns.foldl (fun l s => registerTile l (s.x, s.y) spawnTile) []
  let l1 := placeMines spawns mineCandidates l0
  let l2 := placeFlagTokens spawns flagCandidates l1
  calculateNumbers W spawns l2

/-- GameManager.getRandomSpawnPoint:
spawnPoints[Math.floor(Math.random() * spawnPoints.length)]; the random draw
is modelled by the chosen index. -/
def getRandomSpawnPoint (spawns : List SpawnPoint) (i : Nat) : SpawnPoint :=
  spawns.getD i ⟨0, 0⟩

/-- components/PlayerComponent.ts createPlayerComponent, with the JS
||-defaults spelled out: score falls back to 0, flags to 10 (also when 0 is
passed, since 0 is falsy), alive and connected default to true unless
explicitly false. -/
def createPlayerComponent (id username : String) (score flags : Option Int)
    (alive connected : Option Bool) (color sessionId : Option String) : PlayerComponent :=
  { id := id,
    username := username,
    score := match score with | some s => if s = 0 then 0 else s | none => 0,
    flags := match flags with | some f => if f = 0 then 10 else f | none => 10,
    alive := alive.getD true,
    connected := connected.getD true,
    color := color,
    sessionId := sessionId }

/-- GameManager.createPlayerEntity: a new entity at a random spawn point with
a fresh player component (score, flags, alive, connected all defaulted). -/
def createPlayerEntity (spawns : List SpawnPoint) (i : Nat)
    (id username : String) (color sessionId : Option String) :
    PlayerComponent × PositionComponent :=
  let spawnPoint := getRandomSpawnPoint spawns i
  (createPlayerComponent id username none none none none color sessionId,
   { x := spawnPoint.x, y := spawnPoint.y })

end GameManager

namespace Legacy

/-- The new-player username of the index.ts player-preferences handler:
data.name?.trim().substring(0, 12), falling back (on a missing name or an
empty trimmed string, both falsy) to Player plus the first 6 characters of the
connection label. -/
def newUsername (name : Option String) (label : String) : String :=
  match name with
  | some n =>
    let trimmed := (n.trim.take 12)
    if trimmed = "" then "Player" ++ label.take 6 else trimmed
  | none => "Player" ++ label.take 6

/-- index.ts getRandomSpawnPoint (the random draw modelled by its index). -/
def getRandomSpawnPoint (spawns : List GameManager.SpawnPoint) (i : Nat) :
    GameManager.SpawnPoint :=
  spawns.getD i ⟨0, 0⟩

/-- The player record created by the index.ts player-preferences handler for a
welcome that is not a reconnection: position at a random spawn point, score 0,
3 flags, alive and connected. -/
def createNewPlayer (label : String) (name : Option String) (color : Option String)
    (spawns : List GameManager.SpawnPoint) (i : Nat) : Player :=
  let spawnPoint := getRandomSpawnPoint spawns i
  { id := label,
    x := spawnPoint.x,
    y := spawnPoint.y,
    username := newUsername name label,
    score := 0,
    flags := 3,
    alive := true,
    connected := true,
    color := color }

end Legacy

/-- The number of unflagged mine tiles currently registered (the quantity the
mine-accounting invariant of the specification relates to the caches). -/
def unflaggedMineCount (l : TileList) : Int :=
  (l.countP (fun e => e.2.type == TileType.mine && !e.2.flagged) : Int)

/-! Concrete fixtures used by witnesses and counterexamples. -/

/-- A world state with a single covered flag token next to the player. -/
def gsTokenFlip : GameLogicState :=
  { tiles := [((1, 0), { type := TileType.flagToken, revealed := false, flagged := false })],
    players := [({ id := "p", username := "pat", score := 0, flags := 0,
                   alive := true, connected := true }, { x := 0, y := 0 })],
    totalMines := 0, flaggedMines := 0 }

/-- A world state with two covered mines two tiles apart and one adjacent,
next to the player. -/
def gsTwoMines : GameLogicState :=
  { tiles := [((1, 1), GameManager.mineTile), ((2, 1), GameManager.mineTile)],
    players := [({ id := "p", username := "pat", score := 0, flags := 1,
                   alive := true, connected := true }, { x := 0, y := 1 })],
    totalMines := 0, flaggedMines := 0 }

/-- A world state with a revealed empty tile next to the player, plus a
covered tile and a revealed mine nearby. -/
def gsMoveTest : GameLogicState :=
  { tiles := [((1, 0), { type := TileType.empty, revealed := true, flagged := false }),
              ((0, 1), { type := TileType.empty, revealed := false, flagged := false }),
              ((1, 1), { type := TileType.mine, revealed := true, flagged := false })],
    players := [({ id := "p", username := "pat", score := 4, flags := 2,
                   alive := true, connected := true }, { x := 0, y := 0 })],
    totalMines := 0, flaggedMines := 0 }

/-- A world state with a covered mine next to a player holding three flags. -/
def gsFlagTest : GameLogicState :=
  { tiles := [((1, 0), GameManager.mineTile)],
    players := [({ id := "p", username := "pat", score := 0, flags := 3,
                   alive := true, connected := true }, { x := 0, y := 0 })],
    totalMines := 1, flaggedMines := 0 }

/-- A legacy world holding a covered, unexploded mine on every tile. -/
def wAllMines : Legacy.World :=
  fun _ => { type := TileType.mine, revealed := false, flagged := false }

/-- A player standing one tile from the origin used in the explosion
witness. -/
def plQuinn : Legacy.Player :=
  { id := "q", x := 2, y := 1, username := "quinn", score := 0, flags := 0,
    alive := true, connected := true }

/-- A small generated world: one spawn point, one accepted mine draw, one
rejected mine draw (too close to the spawn), one flag-token draw. -/
def wGenTest : TileList :=
  GameManager.generateWorld 5 [⟨0, 0⟩] [(3, 3), (0, 1)] [(4, 0)]

/-- A cache state with 100 total mines of which 29 are flagged (the tile and
player registries do not enter the progress computation). -/
def gsProgress : GameLogicState :=
  { tiles := [], players := [], totalMines := 100, flaggedMines := 29 }

/-! Helper lemmas about the registry encodings. -/

theorem mem_intRange {a b z : Int} : z ∈ intRange a b ↔ a ≤ z ∧ z ≤ b := by
  unfold intRange
  constructor
  · intro hz
    obtain ⟨i, hi, hiz⟩ := List.mem_map.mp hz
    rw [List.mem_range] at hi
    have hi2 : (i : Int) < b - a + 1 := Int.lt_toNat.mp hi
    omega
  · rintro ⟨haz, hzb⟩
    apply List.mem_map.mpr
    refine ⟨(z - a).toNat, List.mem_range.mpr ?_, ?_⟩
    · rw [Int.lt_toNat, Int.toNat_of_nonneg (show (0:Int) ≤ z - a by omega)]
      omega
    · rw [Int.toNat_of_nonneg (show (0:Int) ≤ z - a by omega)]
      omega

theorem getTileL_cons (e : Pos × Tile) (l : TileList) (p : Pos) :
    getTileL (e :: l) p = if e.1 = p then some e.2 else getTileL l p := by
  by_cases h : e.1 = p <;> simp [getTileL, List.find?_cons, h]

theorem setTileL_of_none (l : TileList) (p : Pos) (t : Tile)
    (h : getTileL l p = none) : setTileL l p t = l := by
  induction l with
  | nil => rfl
  | cons e l ih =>
    rw [getTileL_cons] at h
    by_cases he : e.1 = p
    · simp [he] at h
    · simp only [setTileL, beq_iff_eq, he, if_false]
      rw [ih (by simpa [he] using h)]

theorem getTileL_setTileL_self (l : TileList) (p : Pos) (t : Tile)
    (h : (getTileL l p).isSome) : getTileL (setTileL l p t) p = some t := by
  induction l with
  | nil => simp [getTileL] at h
  | cons e l ih =>
    by_cases he : e.1 = p
    · simp [setTileL, he, getTileL_cons]
    · rw [getTileL_cons] at h
      simp only [he, if_false] at h
      simp only [setTileL, beq_iff_eq, he, if_false]
      rw [getTileL_cons]
      simp only [he, if_false]
      exact ih h

theorem getTileL_setTileL_other (l : TileList) (p : Pos) (t : Tile) (q : Pos)
    (h : q ≠ p) : getTileL (setTileL l p t) q = getTileL l q := by
  induction l with
  | nil => rfl
  | cons e l ih =>
    by_cases he : e.1 = p
    · simp only [setTileL, beq_iff_eq, he, if_true]
      rw [getTileL_cons, getTileL_cons]
      have hpq : ¬ p = q := fun hpq => h hpq.symm
      simp [he, hpq]
    · simp only [setTileL, beq_iff_eq, he, if_false]
      rw [getTileL_cons, getTileL_cons, ih]

theorem getTileL_append_single (l : TileList) (p : Pos) (t : Tile) (q : Pos)
    (h : getTileL l p = none) :
    getTileL (l ++ [(p, t)]) q = if q = p then some t else getTileL l q := by
  induction l with
  | nil =>
    by_cases hq : q = p
    · rw [hq]
      simp [getTileL, List.find?_cons]
    · have hpq : ¬ p = q := fun hpq => hq hpq.symm
      simp [getTileL, List.find?_cons, hpq, hq]
  | cons e l ih =>
    rw [getTileL_cons] at h
    by_cases he : e.1 = p
    · simp [he] at h
    · simp only [he, if_false] at h
      rw [List.cons_append, getTileL_cons, getTileL_cons, ih h]
      by_cases hq : e.1 = q
      · have : ¬ q = p := fun hqp => he (hq.trans hqp)
        simp [hq, this]
      · simp [hq]

theorem getTileL_registerTile (l : TileList) (p : Pos) (t : Tile) (q : Pos) :
    getTileL (registerTile l p t) q = if q = p then some t else getTileL l q := by
  unfold registerTile hasTileL
  by_cases h : (getTileL l p).isSome
  · simp only [h, if_true]
    by_cases hq : q = p
    · rw [hq, getTileL_setTileL_self l p t h, if_pos rfl]
    · rw [getTileL_setTileL_other l p t q hq, if_neg hq]
  · have hn : getTileL l p = none := by
      cases hg : getTileL l p
      · rfl
      · rw [hg] at h; simp at h
    simp only [h, if_false]
    exact getTileL_append_single l p t q hn

theorem find?_map_of_pred_eq {α : Type} (g : α → α) (p : α → Bool)
    (h : ∀ a, p (g a) = p a) : ∀ l : List α, (l.map g).find? p = (l.find? p).map g := by
  intro l
  induction l with
  | nil => rfl
  | cons a l ih =>
    cases hp : p a with
    | true => simp [List.find?_cons, h, hp]
    | false => simp [List.find?_cons, h, hp, ih]

theorem findPlayer_updatePlayer (l : PlayerList) (pid : String)
    (f : PlayerComponent × PositionComponent → PlayerComponent × PositionComponent)
    (hf : ∀ e, (f e).1.id = e.1.id) (pid' : String) :
    findPlayer (updatePlayer l pid f) pid' =
      (findPlayer l pid').map (fun e => if e.1.id == pid then f e else e) := by
  unfold findPlayer updatePlayer
  exact find?_map_of_pred_eq _ _ (by
    intro e
    by_cases he : e.1.id == pid
    · simp [he, hf e]
    · simp [he]) l

theorem findPlayer_updatePlayer_self (l : PlayerList) (pid : String)
    (f : PlayerComponent × PositionComponent → PlayerComponent × PositionComponent)
    (hf : ∀ e, (f e).1.id = e.1.id)
    (e : PlayerComponent × PositionComponent) (he : findPlayer l pid = some e) :
    findPlayer (updatePlayer l pid f) pid = some (f e) := by
  rw [findPlayer_updatePlayer l pid f hf pid, he]
  have he' : l.find? (fun e => e.1.id == pid) = some e := he
  have hpe := List.find?_some he'
  simp only [Option.map_some']
  rw [if_pos hpe]

theorem abs_le_three_of_sq_le_nine (a : Int) (h : a * a ≤ 9) : -3 ≤ a ∧ a ≤ 3 := by
  constructor <;> nlinarith

namespace Legacy

theorem explodeStep_world_untouched (W x y : Int) (st : ExploState) (d : Pos) (q : Pos)
    (hq : q ≠ (x + d.1, y + d.2)) :
    (explodeStep W x y st d).world q = st.world q := by
  unfold explodeStep
  dsimp only
  split
  · split
    · split
      · split
        · simp [setWorld, hq]
        · simp [setWorld, hq]
      · rfl
    · rfl
  · rfl

theorem explodeStep_scheduled_mono (W x y : Int) (st : ExploState) (d : Pos) (q : Pos)
    (hq : q ∈ st.scheduled) : q ∈ (explodeStep W x y st d).scheduled := by
  unfold explodeStep
  dsimp only
  split
  · split
    · split
      · split
        · simp [hq]
        · simpa using hq
      · exact hq
    · exact hq
  · exact hq

theorem foldl_explodeStep_scheduled_mono (W x y : Int) (L : List Pos) :
    ∀ (st : ExploState) (q : Pos), q ∈ st.scheduled →
      q ∈ (L.foldl (explodeStep W x y) st).scheduled := by
  induction L with
  | nil => intro st q hq; exact hq
  | cons d L ih =>
    intro st q hq
    rw [List.foldl_cons]
    exact ih _ q (explodeStep_scheduled_mono W x y st d q hq)

theorem foldl_explodeStep_schedules (W x y : Int) (L : List Pos) :
    ∀ (st : ExploState) (p : Pos),
      (∃ d ∈ L, p = (x + d.1, y + d.2) ∧ d.1 * d.1 + d.2 * d.2 ≤ 9) →
      isValidPosition W p.1 p.2 = true →
      (st.world p).type = TileType.mine →
      (st.world p).exploded = false →
      (st.world p).revealed = false →
      p ∈ (L.foldl (explodeStep W x y) st).scheduled := by
  induction L with
  | nil =>
    intro st p hex _ _ _ _
    obtain ⟨d, hd, _⟩ := hex
    exact absurd hd (List.not_mem_nil d)
  | cons d0 L ih =>
    intro st p hex hv hm he hr
    rw [List.foldl_cons]
    by_cases hp : p = (x + d0.1, y + d0.2)
    · obtain ⟨d, _, hpd, hrad⟩ := hex
      have hd1 : d.1 = d0.1 ∧ d.2 = d0.2 := by
        rw [hp] at hpd
        have h1 := congrArg Prod.fst hpd
        have h2 := congrArg Prod.snd hpd
        simp at h1 h2
        omega
      have hrad0 : d0.1 * d0.1 + d0.2 * d0.2 ≤ 9 := by
        rw [← hd1.1, ← hd1.2]; exact hrad
      apply foldl_explodeStep_scheduled_mono
      unfold explodeStep
      dsimp only
      rw [if_pos hrad0, ← hp, if_pos (by rw [hp] at hv; simpa using hv)]
      rw [if_pos (by simp [hr]), if_pos ⟨hm, he⟩]
      simp
    · apply ih
      · obtain ⟨d, hd, hpd, hrad⟩ := hex
        have hdL : d ∈ L := by
          rcases List.mem_cons.mp hd with h | h
          · exact absurd (h ▸ hpd) hp
          · exact h
        exact ⟨d, hdL, hpd, hrad⟩
      · exact hv
      · rw [explodeStep_world_untouched W x y st d0 p hp]; exact hm
      · rw [explodeStep_world_untouched W x y st d0 p hp]; exact he
      · rw [explodeStep_world_untouched W x y st d0 p hp]; exact hr

end Legacy

/-- C1: for an explosion triggered at origin (x, y) - index.ts handleExplosion,
radius R = 3 - every not-yet-exploded mine tile inside the explosion radius is
scheduled for its own recursive explosion (setTimeout(handleExplosion, 100),
producing chain reactions), and every alive player within Euclidean distance 3
of the origin is marked dead (and reported killed).  The hypothesis is the
system invariant that a revealed mine has already exploded (flips and
explosions mark a mine exploded in the same step that reveals it). -/
theorem explosion_schedules_unexploded_mines_and_kills_players_in_radius
    (W : Int) (world : Legacy.World) (players : List Legacy.Player) (x y : Int)
    (hinv : ∀ p : Pos, (world p).type = TileType.mine → (world p).revealed = true →
      (world p).exploded = true) :
    (∀ nx ny : Int, isValidPosition W nx ny = true →
        (nx - x) * (nx - x) + (ny - y) * (ny - y) ≤ 9 →
        (world (nx, ny)).type = TileType.mine →
        (world (nx, ny)).exploded = false →
        (nx, ny) ∈ (Legacy.handleExplosion W world players x y).scheduled)
    ∧ (∀ pl ∈ players, pl.alive = true → Legacy.distSq pl.x pl.y x y ≤ 9 →
        { pl with alive := false } ∈ (Legacy.handleExplosion W world players x y).players
        ∧ pl.id ∈ (Legacy.handleExplosion W world players x y).killedPlayers) := by
  constructor
  · intro nx ny hv hrad hm he
    have hr : (world (nx, ny)).revealed = false := by
      cases hrev : (world (nx, ny)).revealed
      · rfl
      · exact absurd (hinv (nx, ny) hm hrev) (by simp [he])
    show (nx, ny) ∈ (Legacy.explodeOffsets.foldl (Legacy.explodeStep W x y) ⟨world, [], []⟩).scheduled
    apply Legacy.foldl_explodeStep_schedules
    · refine ⟨(nx - x, ny - y), ?_, by simp, by simpa using hrad⟩
      have hx3 := abs_le_three_of_sq_le_nine (nx - x) (by nlinarith)
      have hy3 := abs_le_three_of_sq_le_nine (ny - y) (by nlinarith)
      unfold Legacy.explodeOffsets
      rw [List.mem_flatMap]
      exact ⟨nx - x, mem_intRange.mpr ⟨hx3.1, hx3.2⟩,
        List.mem_map.mpr ⟨ny - y, mem_intRange.mpr ⟨hy3.1, hy3.2⟩, rfl⟩⟩
    · exact hv
    · exact hm
    · exact he
    · exact hr
  · intro pl hpl halive hdist
    constructor
    · show _ ∈ players.map _
      refine List.mem_map.mpr ⟨pl, hpl, ?_⟩
      rw [if_pos ⟨hdist, by simp [halive]⟩]
    · show _ ∈ (players.filter _).map _
      exact List.mem_map.mpr ⟨pl,
        List.mem_filter.mpr ⟨hpl, by simp [hdist, halive]⟩, rfl⟩

/-- C1 witness: in a 7x7 legacy world covered in unexploded mines, exploding
(1,1) schedules a chained explosion for the mine at (3,1), and the alive
player standing at (2,1) (distance 1 from the origin) is marked dead and
reported killed. -/
theorem explosion_witness :
    ((3 : Int), (1 : Int)) ∈ (Legacy.handleExplosion 7 wAllMines [plQuinn] 1 1).scheduled
    ∧ { plQuinn with alive := false } ∈ (Legacy.handleExplosion 7 wAllMines [plQuinn] 1 1).players
    ∧ plQuinn.id ∈ (Legacy.handleExplosion 7 wAllMines [plQuinn] 1 1).killedPlayers := by
  have h := explosion_schedules_unexploded_mines_and_kills_players_in_radius
    7 wAllMines [plQuinn] 1 1
    (by intro p hm hr; simp [wAllMines] at hr)
  have h2 := h.2 plQuinn (by simp) (by rfl) (by decide)
  exact ⟨h.1 3 1 (by decide) (by decide) (by rfl) (by rfl), h2.1, h2.2⟩

theorem movement_isAdjacent_iff (x1 y1 x2 y2 : Int) :
    MovementSystem.isAdjacent x1 y1 x2 y2 = true ↔
      (x2 - x1).natAbs + (y2 - y1).natAbs = 1 := by
  unfold MovementSystem.isAdjacent
  simp only [Bool.or_eq_true, Bool.and_eq_true, beq_iff_eq]
  omega

theorem requestMovement_cases (W : Int) (gs : GameLogicState) (pid : String) (tx ty : Int) :
    (∃ pc pos, findPlayer gs.players pid = some (pc, pos) ∧
      isValidPosition W tx ty = true ∧
      MovementSystem.isAdjacent pos.x pos.y tx ty = true ∧
      MovementSystem.isTileWalkable W gs.tiles tx ty = true ∧
      pc.alive = true ∧
      MovementSystem.requestMovement W gs pid tx ty =
        (true, updateGsPlayer gs pid (fun e => (e.1, { x := tx, y := ty }))))
    ∨ MovementSystem.requestMovement W gs pid tx ty = (false, gs) := by
  cases hfp : findPlayer gs.players pid with
  | none => right; simp [MovementSystem.requestMovement, hfp]
  | some e =>
    obtain ⟨pc, pos⟩ := e
    by_cases h1 : isValidPosition W tx ty = true
    · by_cases h2 : MovementSystem.isAdjacent pos.x pos.y tx ty = true
      · by_cases h3 : MovementSystem.isTileWalkable W gs.tiles tx ty = true
        · by_cases h4 : pc.alive = true
          · exact Or.inl ⟨pc, pos, rfl, h1, h2, h3, h4,
              by simp [MovementSystem.requestMovement, hfp, h1, h2, h3, h4]⟩
          · right; simp [MovementSystem.requestMovement, hfp, h1, h2, h3, h4]
        · right; simp [MovementSystem.requestMovement, hfp, h1, h2, h3]
      · right; simp [MovementSystem.requestMovement, hfp, h1, h2]
    · right; simp [MovementSystem.requestMovement, hfp, h1]

/-- C2: a move request is accepted only if |dx| + |dy| = 1 and the target tile
is walkable; on rejection the state is unchanged; on acceptance only the
acting player's position changes (tiles, caches and the player component,
score included, are untouched); an out-of-bounds target is rejected; and for
a tile that is not simultaneously flagged and revealed (the tile state-machine
forbids that combination) walkability is equivalent to
(revealed and kind is not mine) or flagged, so a covered unflagged tile and a
revealed mine are not walkable. -/
theorem requestMovement_accepts_only_adjacent_walkable
    (W : Int) (gs : GameLogicState) (pid : String) (tx ty : Int) :
    ((MovementSystem.requestMovement W gs pid tx ty).1 = true →
      ∃ pc pos, findPlayer gs.players pid = some (pc, pos) ∧
        (tx - pos.x).natAbs + (ty - pos.y).natAbs = 1 ∧
        MovementSystem.isTileWalkable W gs.tiles tx ty = true)
    ∧ ((MovementSystem.requestMovement W gs pid tx ty).1 = false →
      (MovementSystem.requestMovement W gs pid tx ty).2 = gs)
    ∧ ((MovementSystem.requestMovement W gs pid tx ty).1 = true →
      (MovementSystem.requestMovement W gs pid tx ty).2.tiles = gs.tiles ∧
      (MovementSystem.requestMovement W gs pid tx ty).2.totalMines = gs.totalMines ∧
      (MovementSystem.requestMovement W gs pid tx ty).2.flaggedMines = gs.flaggedMines ∧
      ∀ pc pos, findPlayer gs.players pid = some (pc, pos) →
        findPlayer (MovementSystem.requestMovement W gs pid tx ty).2.players pid =
          some (pc, { x := tx, y := ty }))
    ∧ (isValidPosition W tx ty = false →
      (MovementSystem.requestMovement W gs pid tx ty).1 = false)
    ∧ (∀ t, getTileL gs.tiles (tx, ty) = some t →
      ¬(t.flagged = true ∧ t.revealed = true) →
      (MovementSystem.isTileWalkable W gs.tiles tx ty = true ↔
        (isValidPosition W tx ty = true ∧
          ((t.revealed = true ∧ t.type ≠ TileType.mine) ∨ t.flagged = true)))) := by
  have hwalk : ∀ t, getTileL gs.tiles (tx, ty) = some t →
      ¬(t.flagged = true ∧ t.revealed = true) →
      (MovementSystem.isTileWalkable W gs.tiles tx ty = true ↔
        (isValidPosition W tx ty = true ∧
          ((t.revealed = true ∧ t.type ≠ TileType.mine) ∨ t.flagged = true))) := by
    intro t ht hnfr
    unfold MovementSystem.isTileWalkable
    cases hv : isValidPosition W tx ty
    · simp
    · rw [ht]
      simp only [Bool.not_true, Bool.false_eq_true, if_false]
      cases hrev : t.revealed <;> cases hfl : t.flagged <;>
        cases hty : t.type == TileType.mine <;>
        simp_all [beq_iff_eq]
  rcases requestMovement_cases W gs pid tx ty with
    ⟨pc, pos, hfp, h1, h2, h3, h4, heq⟩ | heq
  · refine ⟨?_, ?_, ?_, ?_, hwalk⟩
    · intro _
      exact ⟨pc, pos, hfp, (movement_isAdjacent_iff pos.x pos.y tx ty).mp h2, h3⟩
    · intro hrej
      rw [heq] at hrej
      simp at hrej
    · intro _
      rw [heq]
      refine ⟨rfl, rfl, rfl, ?_⟩
      intro pc2 pos2 hfp2
      rw [hfp] at hfp2
      injection hfp2 with hfp2
      have hpc : pc2 = pc := (congrArg Prod.fst hfp2).symm
      have hpos : pos2 = pos := (congrArg Prod.snd hfp2).symm
      rw [hpc]
      exact findPlayer_updatePlayer_self gs.players pid
        (fun e => (e.1, { x := tx, y := ty })) (fun e => rfl) (pc, pos) hfp
    · intro hv
      rw [h1] at hv
      exact absurd hv (by simp)
  · refine ⟨?_, ?_, ?_, ?_, hwalk⟩
    · intro hacc
      rw [heq] at hacc
      simp at hacc
    · intro _
      rw [heq]
    · intro hacc
      rw [heq] at hacc
      simp at hacc
    · intro _
      rw [heq]

/-- C2 witness: in the fixture world the move from (0,0) to the revealed
empty tile (1,0) is accepted (adjacent and walkable), and the move onto the
covered tile (0,1) is rejected leaving the state unchanged. -/
theorem requestMovement_witness :
    (∃ pc pos, findPlayer gsMoveTest.players "p" = some (pc, pos) ∧
      ((1 : Int) - pos.x).natAbs + ((0 : Int) - pos.y).natAbs = 1 ∧
      MovementSystem.isTileWalkable 5 gsMoveTest.tiles 1 0 = true)
    ∧ (MovementSystem.requestMovement 5 gsMoveTest "p" 0 1).2 = gsMoveTest := by
  have h := requestMovement_accepts_only_adjacent_walkable 5 gsMoveTest "p" 1 0
  have h2 := requestMovement_accepts_only_adjacent_walkable 5 gsMoveTest "p" 0 1
  exact ⟨h.1 (by decide), h2.2.1 (by decide)⟩

namespace GameLogicSystem

theorem explosionStep_tile_other (W x y : Int) (gs : GameLogicState) (d : Pos) (q : Pos)
    (hq : q ≠ (x + d.1, y + d.2)) :
    getTileL (explosionStep W x y gs d).tiles q = getTileL gs.tiles q := by
  unfold explosionStep
  dsimp only
  split
  · rfl
  · split
    · cases hg : getTileL gs.tiles (x + d.1, y + d.2) with
      | none => simp [hg]
      | some t =>
        simp only [hg]
        exact getTileL_setTileL_other gs.tiles (x + d.1, y + d.2) _ q hq
    · rfl

theorem explosionStep_preserves_revealedAt (W x y : Int) (gs : GameLogicState) (d : Pos)
    (p : Pos) (h : ∃ t, getTileL gs.tiles p = some t ∧ t.revealed = true) :
    ∃ t2, getTileL (explosionStep W x y gs d).tiles p = some t2 ∧ t2.revealed = true := by
  obtain ⟨t, ht, hrev⟩ := h
  by_cases hp : p = (x + d.1, y + d.2)
  · unfold explosionStep
    dsimp only
    split
    · exact ⟨t, ht, hrev⟩
    · split
      · rw [← hp]
        cases hg : getTileL gs.tiles p with
        | none => rw [hg] at ht; cases ht
        | some t0 =>
          rw [hp] at hg
          simp only [hg, ← hp]
          refine ⟨_, getTileL_setTileL_self gs.tiles p _ (by rw [hp, hg]; rfl), rfl⟩
      · exact ⟨t, ht, hrev⟩
  · rw [explosionStep_tile_other W x y gs d p hp]
    exact ⟨t, ht, hrev⟩

theorem foldl_explosionStep_preserves_revealedAt (W x y : Int) (L : List Pos) :
    ∀ (gs : GameLogicState) (p : Pos),
      (∃ t, getTileL gs.tiles p = some t ∧ t.revealed = true) →
      ∃ t2, getTileL (L.foldl (explosionStep W x y) gs).tiles p = some t2 ∧ t2.revealed = true := by
  induction L with
  | nil => intro gs p h; exact h
  | cons d L ih =>
    intro gs p h
    rw [List.foldl_cons]
    exact ih _ p (explosionStep_preserves_revealedAt W x y gs d p h)

theorem foldl_explosionStep_reveals (W x y : Int) (L : List Pos) :
    ∀ (gs : GameLogicState) (p : Pos),
      (∃ d ∈ L, p = (x + d.1, y + d.2) ∧ ¬(d.1 * d.1 + d.2 * d.2 > 4)) →
      isValidPosition W p.1 p.2 = true →
      (∃ t, getTileL gs.tiles p = some t) →
      ∃ t2, getTileL (L.foldl (explosionStep W x y) gs).tiles p = some t2 ∧
        t2.revealed = true := by
  induction L with
  | nil =>
    intro gs p hex _ _
    obtain ⟨d, hd, _⟩ := hex
    exact absurd hd (List.not_mem_nil d)
  | cons d0 L ih =>
    intro gs p hex hv hsome
    rw [List.foldl_cons]
    by_cases hp : p = (x + d0.1, y + d0.2)
    · obtain ⟨d, _, hpd, hrad⟩ := hex
      have hd1 : d.1 = d0.1 ∧ d.2 = d0.2 := by
        rw [hp] at hpd
        have h1 := congrArg Prod.fst hpd
        have h2 := congrArg Prod.snd hpd
        simp at h1 h2
        omega
      have hrad0 : ¬(d0.1 * d0.1 + d0.2 * d0.2 > 4) := by
        rw [← hd1.1, ← hd1.2]; exact hrad
      apply foldl_explosionStep_preserves_revealedAt
      obtain ⟨t, ht⟩ := hsome
      unfold explosionStep
      dsimp only
      rw [if_neg hrad0, ← hp, if_pos (by rw [hp] at hv; simpa using hv)]
      rw [ht]
      exact ⟨_, getTileL_setTileL_self gs.tiles p _ (by rw [ht]; rfl), rfl⟩
    · apply ih
      · obtain ⟨d, hd, hpd, hrad⟩ := hex
        have hdL : d ∈ L := by
          rcases List.mem_cons.mp hd with h | h
          · exact absurd (h ▸ hpd) hp
          · exact h
        exact ⟨d, hdL, hpd, hrad⟩
      · exact hv
      · obtain ⟨t, ht⟩ := hsome
        exact ⟨t, by rw [explosionStep_tile_other W x y gs d0 p hp]; exact ht⟩

theorem explosionStep_player_effect (W x y : Int) (gs : GameLogicState) (d : Pos)
    (pid : String) (pc : PlayerComponent) (pos : PositionComponent)
    (h : findPlayer gs.players pid = some (pc, pos)) :
    ∃ pc2 : PlayerComponent,
      findPlayer (explosionStep W x y gs d).players pid = some (pc2, pos) ∧
      pc2.score = pc.score ∧ pc2.flags = pc.flags ∧
      (pc.alive = false → pc2.alive = false) := by
  unfold explosionStep
  dsimp only
  split
  · exact ⟨pc, h, rfl, rfl, fun ha => ha⟩
  · split
    · have hgs1 : (match getTileL gs.tiles (x + d.1, y + d.2) with
        | none => gs
        | some t =>
          setGsTile gs (x + d.1, y + d.2)
            { (if (x + d.1 == x && y + d.2 == y) then t
               else { t with type := TileType.explosion }) with
              revealed := true, exploded := true }).players = gs.players := by
        cases getTileL gs.tiles (x + d.1, y + d.2) <;> rfl
      rw [show ∀ gs1 : GameLogicState, ({ gs1 with players := gs1.players.map (fun e =>
          if e.1.alive && e.2.x == x + d.1 && e.2.y == y + d.2 then
            ({ e.1 with alive := false }, e.2) else e) } : GameLogicState).players
          = gs1.players.map (fun e =>
          if e.1.alive && e.2.x == x + d.1 && e.2.y == y + d.2 then
            ({ e.1 with alive := false }, e.2) else e) from fun _ => rfl]
      rw [hgs1]
      rw [show findPlayer (gs.players.map (fun e =>
          if e.1.alive && e.2.x == x + d.1 && e.2.y == y + d.2 then
            ({ e.1 with alive := false }, e.2) else e)) pid
          = (findPlayer gs.players pid).map (fun e =>
          if e.1.alive && e.2.x == x + d.1 && e.2.y == y + d.2 then
            ({ e.1 with alive := false }, e.2) else e) from
        find?_map_of_pred_eq _ _ (by
          intro e
          by_cases hc : (e.1.alive && e.2.x == x + d.1 && e.2.y == y + d.2) = true <;>
            simp [hc]) gs.players]
      rw [h]
      by_cases hc : ((pc, pos).1.alive && (pc, pos).2.x == x + d.1 &&
          (pc, pos).2.y == y + d.2) = true
      · refine ⟨{ pc with alive := false }, ?_, rfl, rfl, fun _ => rfl⟩
        simp only [Option.map_some']
        rw [if_pos hc]
      · refine ⟨pc, ?_, rfl, rfl, fun ha => ha⟩
        simp only [Option.map_some']
        rw [if_neg hc]
    · exact ⟨pc, h, rfl, rfl, fun ha => ha⟩

theorem foldl_explosionStep_player_effect (W x y : Int) (L : List Pos) :
    ∀ (gs : GameLogicState) (pid : String) (pc : PlayerComponent) (pos : PositionComponent),
      findPlayer gs.players pid = some (pc, pos) →
      ∃ pc2 : PlayerComponent,
        findPlayer (L.foldl (explosionStep W x y) gs).players pid = some (pc2, pos) ∧
        pc2.score = pc.score ∧ pc2.flags = pc.flags ∧
        (pc.alive = false → pc2.alive = false) := by
  induction L with
  | nil => intro gs pid pc pos h; exact ⟨pc, h, rfl, rfl, fun ha => ha⟩
  | cons d L ih =>
    intro gs pid pc pos h
    rw [List.foldl_cons]
    obtain ⟨pc1, h1, hs1, hf1, ha1⟩ := explosionStep_player_effect W x y gs d pid pc pos h
    obtain ⟨pc2, h2, hs2, hf2, ha2⟩ := ih _ pid pc1 pos h1
    exact ⟨pc2, h2, hs2.trans hs1, hf2.trans hf1, fun ha => ha2 (ha1 ha)⟩

theorem handleExplosion_actor_effect (W : Int) (gs : GameLogicState) (x y : Int)
    (pid : String) (pc : PlayerComponent) (pos : PositionComponent)
    (h : findPlayer gs.players pid = some (pc, pos)) :
    ∃ pc2 : PlayerComponent,
      findPlayer (handleExplosion W gs x y pid).players pid = some (pc2, pos) ∧
      pc2.alive = false ∧ pc2.score = pc.score ∧ pc2.flags = pc.flags := by
  unfold handleExplosion
  dsimp only
  have hmap : findPlayer (gs.players.map (fun e =>
      if e.1.id == pid && e.1.alive then ({ e.1 with alive := false }, e.2) else e)) pid
      = (findPlayer gs.players pid).map (fun e =>
      if e.1.id == pid && e.1.alive then ({ e.1 with alive := false }, e.2) else e) :=
    find?_map_of_pred_eq _ _ (by
      intro e
      by_cases hc : (e.1.id == pid && e.1.alive) = true <;> simp [hc]) gs.players
  have he' : gs.players.find? (fun e => e.1.id == pid) = some (pc, pos) := h
  have hidp0 := List.find?_some he'
  have hidp : (pc.id == pid) = true := hidp0
  by_cases hal : pc.alive = true
  · have h0 : findPlayer ({ gs with players := gs.players.map (fun e =>
        if e.1.id == pid && e.1.alive then ({ e.1 with alive := false }, e.2) else e) } :
          GameLogicState).players pid = some ({ pc with alive := false }, pos) := by
      show findPlayer (gs.players.map _) pid = _
      rw [hmap, h]
      simp only [Option.map_some']
      rw [if_pos (by simp [hidp, hal])]
    obtain ⟨pc2, h2, hs2, hf2, ha2⟩ := foldl_explosionStep_player_effect W x y
      explosionOffsets
      { gs with players := gs.players.map (fun e =>
          if e.1.id == pid && e.1.alive then ({ e.1 with alive := false }, e.2) else e) }
      pid { pc with alive := false } pos h0
    exact ⟨pc2, h2, ha2 rfl, hs2, hf2⟩
  · have hal2 : pc.alive = false := by
      cases hh : pc.alive
      · rfl
      · exact absurd hh hal
    have h0 : findPlayer ({ gs with players := gs.players.map (fun e =>
        if e.1.id == pid && e.1.alive then ({ e.1 with alive := false }, e.2) else e) } :
          GameLogicState).players pid = some (pc, pos) := by
      show findPlayer (gs.players.map _) pid = _
      rw [hmap, h]
      simp only [Option.map_some']
      rw [if_neg (by simp [hal2])]
    obtain ⟨pc2, h2, hs2, hf2, ha2⟩ := foldl_explosionStep_player_effect W x y
      explosionOffsets
      { gs with players := gs.players.map (fun e =>
          if e.1.id == pid && e.1.alive then ({ e.1 with alive := false }, e.2) else e) }
      pid pc pos h0
    exact ⟨pc2, h2, ha2 hal2, hs2, hf2⟩

/-- C3 counterexample: flipping the covered, unflagged flag-token tile at
(1,0) grants the actor two points, not one (the token branch adds one and the
generic reveal award adds another), and the cell keeps kind flag_token rather
than becoming empty or numbered. -/
theorem flip_flag_token_gains_two_points_and_keeps_cell :
    ((findPlayer (handleTileFlip 5 gsTokenFlip "p" 1 0).players "p").map
        (fun e => e.1.score) = some 2)
    ∧ ¬((findPlayer (handleTileFlip 5 gsTokenFlip "p" 1 0).players "p").map
        (fun e => e.1.score) = some 1)
    ∧ ((getTileL (handleTileFlip 5 gsTokenFlip "p" 1 0).tiles (1, 0)).map
        (fun t => t.type) = some TileType.flagToken)
    ∧ ¬((getTileL (handleTileFlip 5 gsTokenFlip "p" 1 0).tiles (1, 0)).map
        (fun t => t.type) = some TileType.empty)
    ∧ ¬((getTileL (handleTileFlip 5 gsTokenFlip "p" 1 0).tiles (1, 0)).map
        (fun t => t.type) = some TileType.numbered) := by
  decide

/-- C3 (amended): for every accepted flip of a covered, unflagged tile by a
registered player at a valid position: if the tile is a mine the actor dies
and gains no point and the clicked tile is revealed (the explosion may reveal
surrounding tiles as well); if it is a flag token the actor gains exactly +1
flag and exactly +2 score and the cell stays a revealed flag_token; otherwise
the actor gains exactly +1 score; and a non-mine flip reveals no tile other
than the clicked one. -/
theorem handleTileFlip_effects (W : Int) (gs : GameLogicState) (pid : String) (x y : Int)
    (t : Tile) (pc : PlayerComponent) (pos : PositionComponent)
    (ht : getTileL gs.tiles (x, y) = some t)
    (hrev : t.revealed = false) (hflag : t.flagged = false)
    (hfp : findPlayer gs.players pid = some (pc, pos))
    (hv : isValidPosition W x y = true) :
    (t.type = TileType.mine →
      (∃ pc2 : PlayerComponent,
        findPlayer (handleTileFlip W gs pid x y).players pid = some (pc2, pos) ∧
        pc2.alive = false ∧ pc2.score = pc.score ∧ pc2.flags = pc.flags)
      ∧ ∃ t2, getTileL (handleTileFlip W gs pid x y).tiles (x, y) = some t2 ∧
          t2.revealed = true)
    ∧ (t.type = TileType.flagToken →
      (∃ pc2 : PlayerComponent,
        findPlayer (handleTileFlip W gs pid x y).players pid = some (pc2, pos) ∧
        pc2.score = pc.score + 2 ∧ pc2.flags = pc.flags + 1 ∧ pc2.alive = pc.alive)
      ∧ getTileL (handleTileFlip W gs pid x y).tiles (x, y) =
          some { t with revealed := true })
    ∧ (t.type ≠ TileType.mine → t.type ≠ TileType.flagToken →
      (∃ pc2 : PlayerComponent,
        findPlayer (handleTileFlip W gs pid x y).players pid = some (pc2, pos) ∧
        pc2.score = pc.score + 1 ∧ pc2.flags = pc.flags ∧ pc2.alive = pc.alive)
      ∧ getTileL (handleTileFlip W gs pid x y).tiles (x, y) =
          some { t with revealed := true })
    ∧ (t.type ≠ TileType.mine → ∀ q : Pos, q ≠ (x, y) →
      getTileL (handleTileFlip W gs pid x y).tiles q = getTileL gs.tiles q) := by
  have hsome : (getTileL gs.tiles (x, y)).isSome := by rw [ht]; rfl
  have hcenter : getTileL (setTileL gs.tiles (x, y) { t with revealed := true }) (x, y) =
      some { t with revealed := true } :=
    getTileL_setTileL_self gs.tiles (x, y) _ hsome
  have hmine : t.type = TileType.mine → handleTileFlip W gs pid x y =
      handleExplosion W (setGsTile gs (x, y) { t with revealed := true }) x y pid := by
    intro hty
    simp [handleTileFlip, ht, hrev, hflag, hfp, hty]
  have htoken : t.type = TileType.flagToken → handleTileFlip W gs pid x y =
      updateGsPlayer (updateGsPlayer (setGsTile gs (x, y) { t with revealed := true }) pid
        (fun e => ({ e.1 with flags := e.1.flags + 1, score := e.1.score + 1 }, e.2))) pid
        (fun e => ({ e.1 with score := e.1.score + 1 }, e.2)) := by
    intro hty
    simp [handleTileFlip, ht, hrev, hflag, hfp, hty]
  have hother : t.type ≠ TileType.mine → t.type ≠ TileType.flagToken →
      handleTileFlip W gs pid x y =
      updateGsPlayer (setGsTile gs (x, y) { t with revealed := true }) pid
        (fun e => ({ e.1 with score := e.1.score + 1 }, e.2)) := by
    intro h1 h2
    simp [handleTileFlip, ht, hrev, hflag, hfp, h1, h2]
  refine ⟨?_, ?_, ?_, ?_⟩
  · intro hty
    rw [hmine hty]
    constructor
    · exact handleExplosion_actor_effect W (setGsTile gs (x, y) { t with revealed := true })
        x y pid pc pos hfp
    · have := foldl_explosionStep_reveals W x y explosionOffsets
        { (setGsTile gs (x, y) { t with revealed := true }) with
          players := (setGsTile gs (x, y) { t with revealed := true }).players.map (fun e =>
            if e.1.id == pid && e.1.alive then ({ e.1 with alive := false }, e.2) else e) }
        (x, y)
        ⟨((0 : Int), (0 : Int)), by decide, by simp, by decide⟩
        (by exact hv)
        ⟨{ t with revealed := true }, hcenter⟩
      exact this
  · intro hty
    rw [htoken hty]
    have s1 := findPlayer_updatePlayer_self gs.players pid
      (fun e => ({ e.1 with flags := e.1.flags + 1, score := e.1.score + 1 }, e.2))
      (fun e => rfl) (pc, pos) hfp
    have s2 := findPlayer_updatePlayer_self
      (updatePlayer gs.players pid
        (fun e => ({ e.1 with flags := e.1.flags + 1, score := e.1.score + 1 }, e.2))) pid
      (fun e => ({ e.1 with score := e.1.score + 1 }, e.2))
      (fun e => rfl) _ s1
    refine ⟨⟨{ pc with flags := pc.flags + 1, score := pc.score + 1 + 1 }, s2, ?_, rfl, rfl⟩, hcenter⟩
    show pc.score + 1 + 1 = pc.score + 2
    ring
  · intro h1 h2
    rw [hother h1 h2]
    have s1 := findPlayer_updatePlayer_self gs.players pid
      (fun e => ({ e.1 with score := e.1.score + 1 }, e.2))
      (fun e => rfl) (pc, pos) hfp
    exact ⟨⟨{ pc with score := pc.score + 1 }, s1, rfl, rfl, rfl⟩, hcenter⟩
  · intro h1 q hq
    by_cases h2 : t.type = TileType.flagToken
    · rw [htoken h2]
      exact getTileL_setTileL_other gs.tiles (x, y) _ q hq
    · rw [hother h1 h2]
      exact getTileL_setTileL_other gs.tiles (x, y) _ q hq

/-- C3 witness: flipping the covered flag token at (1,0) in the fixture world
yields exactly +1 flag and +2 score for the actor and leaves the revealed cell
a flag token. -/
theorem handleTileFlip_effects_witness :
    (∃ pc2 : PlayerComponent,
      findPlayer (handleTileFlip 5 gsTokenFlip "p" 1 0).players "p" = some (pc2,
        { x := 0, y := 0 }) ∧
      pc2.score = 0 + 2 ∧ pc2.flags = 0 + 1 ∧ pc2.alive = true)
    ∧ getTileL (handleTileFlip 5 gsTokenFlip "p" 1 0).tiles (1, 0) =
        some { type := TileType.flagToken, revealed := true, flagged := false } := by
  have h := handleTileFlip_effects 5 gsTokenFlip "p" 1 0
    { type := TileType.flagToken, revealed := false, flagged := false }
    { id := "p", username := "pat", score := 0, flags := 0, alive := true, connected := true }
    { x := 0, y := 0 } rfl rfl rfl rfl (by decide)
  exact h.2.1 rfl

theorem handleTileFlag_cases (gs : GameLogicState) (pid : String) (x y : Int) :
    (∃ t pc pos, getTileL gs.tiles (x, y) = some t ∧ t.revealed = false ∧
      t.flagged = false ∧ findPlayer gs.players pid = some (pc, pos) ∧ 0 < pc.flags ∧
      (handleTileFlag gs pid x y).1 = true ∧
      (handleTileFlag gs pid x y).2 =
        (let gs1 := setGsTile gs (x, y) { t with flagged := true, flaggedBy := some pid }
         let gs2 := updateGsPlayer gs1 pid (fun e => ({ e.1 with flags := e.1.flags - 1 }, e.2))
         if t.type = TileType.mine then
           { (updateGsPlayer gs2 pid (fun e => ({ e.1 with score := e.1.score + 3 }, e.2))) with
             flaggedMines := gs2.flaggedMines + 1 }
         else gs2))
    ∨ ((handleTileFlag gs pid x y).1 = false ∧ (handleTileFlag gs pid x y).2 = gs) := by
  cases hget : getTileL gs.tiles (x, y) with
  | none => right; constructor <;> simp [handleTileFlag, hget]
  | some t =>
    cases hrev : t.revealed with
    | true => right; constructor <;> simp [handleTileFlag, hget, hrev]
    | false =>
      cases hflag : t.flagged with
      | true => right; constructor <;> simp [handleTileFlag, hget, hrev, hflag]
      | false =>
        cases hfp : findPlayer gs.players pid with
        | none => right; constructor <;> simp [handleTileFlag, hget, hrev, hflag, hfp]
        | some e =>
          obtain ⟨pc, pos⟩ := e
          by_cases hfl : pc.flags ≤ 0
          · right; constructor <;> simp [handleTileFlag, hget, hrev, hflag, hfp, hfl]
          · left
            refine ⟨t, pc, pos, rfl, hrev, hflag, rfl, by omega, ?_, ?_⟩
            · simp [handleTileFlag, hget, hrev, hflag, hfp, hfl]
            · simp [handleTileFlag, hget, hrev, hflag, hfp, hfl]

/-- C4: a flag action is accepted (the handler places a flag) only if the
target tile is covered and unflagged and the actor holds at least one flag;
on acceptance the inventory decreases by exactly one, the tile becomes flagged
with flagged-by the actor, and exactly when the underlying kind is a mine the
actor's score grows by 3 and the flaggedMines counter by 1; a rejected flag
leaves the state unchanged, and revealed or already-flagged targets and an
empty inventory are always rejected. -/
theorem handleTileFlag_spec (gs : GameLogicState) (pid : String) (x y : Int) :
    ((GameLogicSystem.handleTileFlag gs pid x y).1 = true →
      ∃ t pc pos, getTileL gs.tiles (x, y) = some t ∧ t.revealed = false ∧
        t.flagged = false ∧ findPlayer gs.players pid = some (pc, pos) ∧ 1 ≤ pc.flags ∧
        getTileL (GameLogicSystem.handleTileFlag gs pid x y).2.tiles (x, y) =
          some { t with flagged := true, flaggedBy := some pid } ∧
        (∃ pc2 : PlayerComponent,
          findPlayer (GameLogicSystem.handleTileFlag gs pid x y).2.players pid =
            some (pc2, pos) ∧
          pc2.flags = pc.flags - 1 ∧ pc2.alive = pc.alive ∧
          (t.type = TileType.mine → pc2.score = pc.score + 3 ∧
            (GameLogicSystem.handleTileFlag gs pid x y).2.flaggedMines =
              gs.flaggedMines + 1) ∧
          (t.type ≠ TileType.mine → pc2.score = pc.score ∧
            (GameLogicSystem.handleTileFlag gs pid x y).2.flaggedMines = gs.flaggedMines)))
    ∧ ((GameLogicSystem.handleTileFlag gs pid x y).1 = false →
      (GameLogicSystem.handleTileFlag gs pid x y).2 = gs)
    ∧ (∀ t, getTileL gs.tiles (x, y) = some t → (t.revealed = true ∨ t.flagged = true) →
      (GameLogicSystem.handleTileFlag gs pid x y).1 = false)
    ∧ (∀ pc pos, findPlayer gs.players pid = some (pc, pos) → pc.flags ≤ 0 →
      (GameLogicSystem.handleTileFlag gs pid x y).1 = false) := by
  rcases handleTileFlag_cases gs pid x y with
    ⟨t, pc, pos, hget, hrev, hflag, hfp, hfl, htrue, heq⟩ | ⟨hfalse, hsame⟩
  · have hsome : (getTileL gs.tiles (x, y)).isSome := by rw [hget]; rfl
    refine ⟨?_, ?_, ?_, ?_⟩
    · intro _
      refine ⟨t, pc, pos, hget, hrev, hflag, hfp, by omega, ?_, ?_⟩
      · rw [heq]
        by_cases hty : t.type = TileType.mine
        · simp only [hty, if_pos rfl]
          exact getTileL_setTileL_self gs.tiles (x, y) _ hsome
        · simp only [if_neg hty]
          exact getTileL_setTileL_self gs.tiles (x, y) _ hsome
      · have s1 := findPlayer_updatePlayer_self gs.players pid
          (fun e => ({ e.1 with flags := e.1.flags - 1 }, e.2)) (fun e => rfl) (pc, pos) hfp
        by_cases hty : t.type = TileType.mine
        · have s3 := findPlayer_updatePlayer_self
            (updatePlayer gs.players pid (fun e => ({ e.1 with flags := e.1.flags - 1 }, e.2)))
            pid (fun e => ({ e.1 with score := e.1.score + 3 }, e.2)) (fun e => rfl) _ s1
          refine ⟨{ pc with flags := pc.flags - 1, score := pc.score + 3 }, ?_, rfl, rfl,
            fun _ => ⟨rfl, ?_⟩, fun hne => absurd hty hne⟩
          · rw [heq]
            simp only [hty, if_pos rfl]
            exact s3
          · rw [heq]
            simp only [hty, if_pos rfl]
            rfl
        · refine ⟨{ pc with flags := pc.flags - 1 }, ?_, rfl, rfl,
            fun hm => absurd hm hty, fun _ => ⟨rfl, ?_⟩⟩
          · rw [heq]
            simp only [if_neg hty]
            exact s1
          · rw [heq]
            simp only [if_neg hty]
            rfl
    · intro hrej
      rw [htrue] at hrej
      cases hrej
    · intro t2 hget2 hrf
      rw [hget] at hget2
      injection hget2 with hget2
      rw [← hget2] at hrf
      rcases hrf with h | h
      · rw [hrev] at h; cases h
      · rw [hflag] at h; cases h
    · intro pc2 pos2 hfp2 hle
      rw [hfp] at hfp2
      injection hfp2 with hfp2
      have : pc2 = pc := (congrArg Prod.fst hfp2).symm
      rw [this] at hle
      omega
  · refine ⟨?_, fun _ => hsame, fun _ _ _ => hfalse, fun _ _ _ _ => hfalse⟩
    intro hacc
    rw [hfalse] at hacc
    cases hacc

/-- C4 witness: flagging the covered mine at (1,0) with three flags in
inventory is accepted: the inventory drops to two, the tile becomes flagged by
the actor, the score grows by 3 and flaggedMines increments. -/
theorem handleTileFlag_spec_witness :
    ∃ t pc pos, getTileL gsFlagTest.tiles (1, 0) = some t ∧ t.revealed = false ∧
      t.flagged = false ∧ findPlayer gsFlagTest.players "p" = some (pc, pos) ∧
      1 ≤ pc.flags ∧
      getTileL (GameLogicSystem.handleTileFlag gsFlagTest "p" 1 0).2.tiles (1, 0) =
        some { t with flagged := true, flaggedBy := some "p" } ∧
      (∃ pc2 : PlayerComponent,
        findPlayer (GameLogicSystem.handleTileFlag gsFlagTest "p" 1 0).2.players "p" =
          some (pc2, pos) ∧
        pc2.flags = pc.flags - 1 ∧ pc2.alive = pc.alive ∧
        (t.type = TileType.mine → pc2.score = pc.score + 3 ∧
          (GameLogicSystem.handleTileFlag gsFlagTest "p" 1 0).2.flaggedMines =
            gsFlagTest.flaggedMines + 1) ∧
        (t.type ≠ TileType.mine → pc2.score = pc.score ∧
          (GameLogicSystem.handleTileFlag gsFlagTest "p" 1 0).2.flaggedMines =
            gsFlagTest.flaggedMines)) := by
  exact (handleTileFlag_spec gsFlagTest "p" 1 0).1 (by decide)

end GameLogicSystem

/-- C5 counterexample: an unflag request that passes the position, adjacency
and aliveness gates is reported as accepted by
GameLogicSystem.requestTileAction (the source returns true after dispatching
to the no-op unflag handler), contradicting that every unflag request is
reported rejected. -/
theorem unflag_reported_accepted :
    (GameLogicSystem.requestTileAction 5 gsTokenFlip "p" 1 0
      GameLogicSystem.TileAction.unflag).1 = true := by
  decide

/-- C5 (amended): an unflag request never mutates any tile or player state:
the ECS pipeline returns the world unchanged (although requestTileAction
reports an unflag that passes its validity gates as accepted), and the legacy
index.ts handler reports every unflag rejected. -/
theorem unflag_never_mutates_state (W : Int) (gs : GameLogicState) (pid : String) (x y : Int) :
    (GameLogicSystem.requestTileAction W gs pid x y GameLogicSystem.TileAction.unflag).2 = gs
    ∧ GameLogicSystem.handleTileUnflag gs pid x y = gs
    ∧ Legacy.handleTileUnflag pid x y = false := by
  refine ⟨?_, rfl, rfl⟩
  unfold GameLogicSystem.requestTileAction
  cases hfp : findPlayer gs.players pid with
  | none => rfl
  | some e =>
    obtain ⟨pc, pos⟩ := e
    dsimp only
    split
    · rfl
    · split
      · rfl
      · split
        · rfl
        · split
          · rfl
          · rfl

theorem countP_split {α : Type} (l : List α) (p q : α → Bool) :
    l.countP p = l.countP (fun a => p a && q a) + l.countP (fun a => p a && !q a) := by
  induction l with
  | nil => rfl
  | cons a l ih =>
    simp only [List.countP_cons]
    cases hp : p a <;> cases hq : q a <;> simp [hp, hq] <;> omega

theorem countP_setTileL (l : TileList) (p : Pos) (t0 t : Tile) (f : Tile → Bool)
    (h : getTileL l p = some t0) :
    (setTileL l p t).countP (fun e => f e.2) + (if f t0 then 1 else 0) =
      l.countP (fun e => f e.2) + (if f t then 1 else 0) := by
  induction l with
  | nil => cases h
  | cons e l ih =>
    rw [getTileL_cons] at h
    by_cases he : e.1 = p
    · rw [if_pos he] at h
      injection h with h
      simp only [setTileL, beq_iff_eq, he, if_true, List.countP_cons]
      rw [← h]
      cases hft : f t <;> cases hft0 : f e.2 <;> simp [hft, hft0]
    · rw [if_neg he] at h
      simp only [setTileL, beq_iff_eq, he, if_false, List.countP_cons]
      have := ih h
      omega

/-! Error bounds for the binary64 rounding model: a positive value is
reproduced to within one part in 2^52, which pins the floored progress
percentage to within one of the exact value. -/

theorem natLog2Rec_eq (fuel : ℕ) : ∀ n : ℕ, n ≤ fuel → natLog2Rec fuel n = Nat.log2 n := by
  induction fuel with
  | zero =>
    intro n hn
    have h0 : n = 0 := by omega
    rw [h0]
    conv_rhs => unfold Nat.log2
    norm_num [natLog2Rec]
  | succ fuel ih =>
    intro n hn
    unfold natLog2Rec
    by_cases h2 : 2 ≤ n
    · rw [if_pos h2, ih (n / 2) (by omega)]
      conv_rhs => unfold Nat.log2
      rw [if_pos h2]
    · rw [if_neg h2]
      conv_rhs => unfold Nat.log2
      rw [if_neg h2]

theorem natLog2_eq (n : ℕ) : natLog2 n = Nat.log2 n := natLog2Rec_eq n n le_rfl

theorem qGePow_le (a b : ℕ) (hb : 0 < b) (x : Int) (h : qGePow a b x = true) :
    (2:ℚ) ^ x ≤ (a:ℚ) / (b:ℚ) := by
  have hbq : (0:ℚ) < (b:ℚ) := by exact_mod_cast hb
  rw [le_div_iff₀ hbq]
  unfold qGePow at h
  split at h
  · rename_i hx
    have hn : b * 2 ^ x.toNat ≤ a := of_decide_eq_true h
    have hq : ((b : ℚ)) * (2:ℚ) ^ x.toNat ≤ (a:ℚ) := by exact_mod_cast hn
    have hz : (2:ℚ) ^ x = (2:ℚ) ^ (x.toNat : ℕ) := by
      rw [← zpow_natCast]
      rw [Int.toNat_of_nonneg hx]
    rw [hz]
    linarith
  · rename_i hx
    have hn : b ≤ a * 2 ^ (-x).toNat := of_decide_eq_true h
    have hq : ((b : ℚ)) ≤ (a:ℚ) * (2:ℚ) ^ ((-x).toNat : ℕ) := by exact_mod_cast hn
    have hxneg : x < 0 := by omega
    have hz : (2:ℚ) ^ ((-x).toNat : ℕ) = (2:ℚ) ^ (-x) := by
      rw [← zpow_natCast]
      rw [Int.toNat_of_nonneg (by omega : (0:ℤ) ≤ -x)]
    rw [hz] at hq
    have hpos : (0:ℚ) < (2:ℚ) ^ (-x) := zpow_pos (by norm_num) _
    have := mul_le_mul_of_nonneg_right hq (le_of_lt (zpow_pos (by norm_num : (0:ℚ) < 2) x))
    rw [mul_assoc, ← zpow_add₀ (by norm_num : (2:ℚ) ≠ 0)] at this
    simp only [neg_add_cancel, zpow_zero, mul_one] at this
    linarith

theorem flExp_le (a b : ℕ) (ha : 0 < a) (hb : 0 < b) :
    (2:ℚ) ^ (flExp a b) ≤ (a:ℚ) / (b:ℚ) := by
  have hbq : (0:ℚ) < (b:ℚ) := by exact_mod_cast hb
  unfold flExp
  rw [natLog2_eq a, natLog2_eq b]
  split
  · rename_i h
    exact qGePow_le a b hb _ h
  · have h1 : ((2:ℚ) ^ (Nat.log2 a : ℕ)) ≤ (a:ℚ) := by
      exact_mod_cast Nat.log2_self_le ha.ne'
    have h2 : (b:ℚ) < (2:ℚ) ^ (Nat.log2 b + 1 : ℕ) := by
      exact_mod_cast Nat.lt_log2_self
    rw [le_div_iff₀ hbq]
    have hpos : (0:ℚ) < (2:ℚ) ^ ((Nat.log2 a : Int) - (Nat.log2 b : Int) - 1) :=
      zpow_pos (by norm_num) _
    have step : (2:ℚ) ^ ((Nat.log2 a : Int) - (Nat.log2 b : Int) - 1) * (b:ℚ) <
        (2:ℚ) ^ ((Nat.log2 a : Int) - (Nat.log2 b : Int) - 1) *
          (2:ℚ) ^ (Nat.log2 b + 1 : ℕ) :=
      mul_lt_mul_of_pos_left h2 hpos
    have heq : (2:ℚ) ^ ((Nat.log2 a : Int) - (Nat.log2 b : Int) - 1) *
        (2:ℚ) ^ (Nat.log2 b + 1 : ℕ) = (2:ℚ) ^ (Nat.log2 a : ℕ) := by
      rw [← zpow_natCast (2:ℚ) (Nat.log2 b + 1), ← zpow_natCast (2:ℚ) (Nat.log2 a),
        ← zpow_add₀ (by norm_num : (2:ℚ) ≠ 0)]
      congr 1
      push_cast
      ring
    rw [heq] at step
    linarith

theorem flScale_cancel (a b : ℕ) (hb : 0 < b) :
    ((flScaleN a b : ℚ) / (flScaleD a b : ℚ)) * (2:ℚ) ^ (flExp a b - 52) = (a:ℚ) / (b:ℚ) := by
  have hbq : (0:ℚ) < (b:ℚ) := by exact_mod_cast hb
  unfold flScaleN flScaleD
  push_cast
  have key : (2:ℚ) ^ ((52 - flExp a b).toNat : ℕ) * (2:ℚ) ^ (flExp a b - 52) =
      (2:ℚ) ^ (((flExp a b - 52).toNat) : ℕ) := by
    rcases le_or_lt (flExp a b) 52 with h | h
    · have h1 : (flExp a b - 52).toNat = 0 := by omega
      rw [h1, pow_zero, ← zpow_natCast (2:ℚ) ((52 - flExp a b).toNat),
        Int.toNat_of_nonneg (by omega : (0:ℤ) ≤ 52 - flExp a b),
        ← zpow_add₀ (by norm_num : (2:ℚ) ≠ 0)]
      simp
    · have h1 : (52 - flExp a b).toNat = 0 := by omega
      rw [h1, pow_zero, one_mul, ← zpow_natCast (2:ℚ) ((flExp a b - 52).toNat),
        Int.toNat_of_nonneg (by omega : (0:ℤ) ≤ flExp a b - 52)]
  rw [div_mul_eq_mul_div, mul_assoc, key]
  rw [div_eq_div_iff (by positivity) (by positivity)]
  ring

theorem roundNearestEven_bounds (N D : ℕ) :
    N / D ≤ roundNearestEven N D ∧ roundNearestEven N D ≤ N / D + 1 := by
  unfold roundNearestEven
  split
  · omega
  · split
    · omega
    · split <;> omega

theorem fl53Pos_bounds (a b : ℕ) (ha : 0 < a) (hb : 0 < b) :
    (a:ℚ) / b - ((a:ℚ) / b) * (2:ℚ) ^ (-52 : Int) ≤ fl53Pos a b ∧
      fl53Pos a b ≤ (a:ℚ) / b + ((a:ℚ) / b) * (2:ℚ) ^ (-52 : Int) := by
  have hD : 0 < flScaleD a b := by
    have : 0 < 2 ^ (flExp a b - 52).toNat := Nat.pos_pow_of_pos _ (by norm_num)
    unfold flScaleD
    positivity
  have hDq : (0:ℚ) < (flScaleD a b : ℚ) := by exact_mod_cast hD
  have e1 : flScaleD a b * (flScaleN a b / flScaleD a b) + flScaleN a b % flScaleD a b =
      flScaleN a b := Nat.div_add_mod _ _
  have hmod : flScaleN a b % flScaleD a b < flScaleD a b := Nat.mod_lt _ hD
  have hmb := roundNearestEven_bounds (flScaleN a b) (flScaleD a b)
  have e1q : (flScaleD a b : ℚ) * ((flScaleN a b / flScaleD a b : ℕ) : ℚ) +
      ((flScaleN a b % flScaleD a b : ℕ) : ℚ) = (flScaleN a b : ℚ) := by exact_mod_cast e1
  have hmodq : ((flScaleN a b % flScaleD a b : ℕ) : ℚ) < (flScaleD a b : ℚ) := by
    exact_mod_cast hmod
  have hmbq1 : ((flScaleN a b / flScaleD a b : ℕ) : ℚ) ≤
      (roundNearestEven (flScaleN a b) (flScaleD a b) : ℚ) := by exact_mod_cast hmb.1
  have hmbq2 : (roundNearestEven (flScaleN a b) (flScaleD a b) : ℚ) ≤
      ((flScaleN a b / flScaleD a b : ℕ) : ℚ) + 1 := by exact_mod_cast hmb.2
  have hs1 : (flScaleN a b : ℚ) / (flScaleD a b : ℚ) <
      ((flScaleN a b / flScaleD a b : ℕ) : ℚ) + 1 := by
    rw [div_lt_iff₀ hDq]
    nlinarith
  have hs2 : ((flScaleN a b / flScaleD a b : ℕ) : ℚ) ≤
      (flScaleN a b : ℚ) / (flScaleD a b : ℚ) := by
    rw [le_div_iff₀ hDq]
    nlinarith
  have hmlow : (flScaleN a b : ℚ) / (flScaleD a b : ℚ) - 1 ≤
      (roundNearestEven (flScaleN a b) (flScaleD a b) : ℚ) := by linarith
  have hmup : (roundNearestEven (flScaleN a b) (flScaleD a b) : ℚ) ≤
      (flScaleN a b : ℚ) / (flScaleD a b : ℚ) + 1 := by linarith
  have hcancel := flScale_cancel a b hb
  have hz : (0:ℚ) < (2:ℚ) ^ (flExp a b - 52) := zpow_pos (by norm_num) _
  have hq52 : (2:ℚ) ^ (flExp a b - 52) ≤ ((a:ℚ) / b) * (2:ℚ) ^ (-52 : Int) := by
    have hle := flExp_le a b ha hb
    have hsplit : (2:ℚ) ^ (flExp a b - 52) = (2:ℚ) ^ (flExp a b) * (2:ℚ) ^ (-52 : Int) := by
      rw [← zpow_add₀ (by norm_num : (2:ℚ) ≠ 0)]
      congr 1
    rw [hsplit]
    exact mul_le_mul_of_nonneg_right hle (le_of_lt (zpow_pos (by norm_num) _))
  constructor
  · have := mul_le_mul_of_nonneg_right hmlow hz.le
    rw [sub_mul, one_mul, hcancel] at this
    unfold fl53Pos
    linarith
  · have := mul_le_mul_of_nonneg_right hmup hz.le
    rw [add_mul, one_mul, hcancel] at this
    unfold fl53Pos
    linarith

theorem flRoundPair_val (a b : ℕ) :
    ((flRoundPair a b).1 : ℚ) * (2:ℚ) ^ (flRoundPair a b).2 = fl53Pos a b := rfl

theorem flTimes100_val (p : ℕ × Int) :
    ((flTimes100 p).1 : ℚ) / ((flTimes100 p).2 : ℚ) = 100 * (p.1 : ℚ) * (2:ℚ) ^ p.2 := by
  obtain ⟨m, e⟩ := p
  unfold flTimes100
  dsimp only
  push_cast
  rcases le_or_lt 0 e with h | h
  · have h1 : (-e).toNat = 0 := by omega
    rw [h1, pow_zero, div_one, ← zpow_natCast (2:ℚ) e.toNat, Int.toNat_of_nonneg h]
  · have h1 : e.toNat = 0 := by omega
    rw [h1, pow_zero, mul_one,
      ← zpow_natCast (2:ℚ) (-e).toNat, Int.toNat_of_nonneg (by omega : (0:ℤ) ≤ -e)]
    rw [div_eq_iff (by positivity), mul_assoc, ← zpow_add₀ (by norm_num : (2:ℚ) ≠ 0)]
    simp

theorem flFloor_val (p : ℕ × Int) : flFloor p = ⌊(p.1 : ℚ) * (2:ℚ) ^ p.2⌋ := by
  obtain ⟨m, e⟩ := p
  unfold flFloor
  dsimp only
  rcases le_or_lt 0 e with h | h
  · have h1 : (-e).toNat = 0 := by omega
    rw [h1, pow_zero, Int.ediv_one]
    have h2 : (m:ℚ) * (2:ℚ) ^ e = (((m : ℤ) * 2 ^ e.toNat : ℤ) : ℚ) := by
      push_cast
      rw [← zpow_natCast (2:ℚ) e.toNat, Int.toNat_of_nonneg h]
    rw [h2, Int.floor_intCast]
  · have h1 : e.toNat = 0 := by omega
    rw [h1, pow_zero, mul_one]
    have h2 : (m:ℚ) * (2:ℚ) ^ e = ((m : ℤ) : ℚ) / ((2 ^ (-e).toNat : ℕ) : ℚ) := by
      push_cast
      rw [← zpow_natCast (2:ℚ) (-e).toNat, Int.toNat_of_nonneg (by omega : (0:ℤ) ≤ -e)]
      rw [eq_div_iff (by positivity), mul_assoc, ← zpow_add₀ (by norm_num : (2:ℚ) ≠ 0)]
      simp
    rw [h2, Rat.floor_intCast_div_natCast]
    push_cast
    rfl

theorem roundNearestEven_zero (D : ℕ) (hD : 0 < D) : roundNearestEven 0 D = 0 := by
  unfold roundNearestEven
  rw [Nat.zero_mod, Nat.zero_div, mul_zero, if_pos hD]

theorem floorDoubleProgress_bounds (f t : Int) (ht : 0 < t) (hf : 0 ≤ f) (hft : f ≤ t) :
    (100 * f) / t - 1 ≤ floorDoubleProgress f t ∧
      floorDoubleProgress f t ≤ (100 * f) / t + 1 := by
  have htq : (0:ℚ) < (t:ℚ) := by exact_mod_cast ht
  have hE : ⌊(100 * (f:ℚ)) / (t:ℚ)⌋ = (100 * f) / t := by
    have h2 : ((t.toNat : ℕ) : ℚ) = ((t : ℤ) : ℚ) := by
      exact_mod_cast congrArg (fun z : ℤ => (z : ℚ)) (Int.toNat_of_nonneg ht.le)
    have h3 : (100 * (f:ℚ)) = (((100 * f : ℤ) : ℚ)) := by push_cast; ring
    rw [h3, ← h2, Rat.floor_intCast_div_natCast, Int.toNat_of_nonneg ht.le]
  have hbt : 0 < t.toNat := by omega
  rcases eq_or_lt_of_le hf with h0 | hfpos
  · rw [← h0]
    have hD1 : 0 < flScaleD (0:Int).toNat t.toNat := by
      unfold flScaleD
      positivity
    have hN1 : flScaleN (0:Int).toNat t.toNat = 0 := by
      unfold flScaleN
      simp
    have hz : floorDoubleProgress 0 t = 0 := by
      unfold floorDoubleProgress flRoundPair
      rw [hN1, roundNearestEven_zero _ hD1]
      have ha2 : (flTimes100 ((0:ℕ), flExp (0:Int).toNat t.toNat - 52)).1 = 0 := by
        unfold flTimes100
        simp
      rw [ha2]
      have hD2 : 0 < flScaleD 0 (flTimes100 ((0:ℕ), flExp (0:Int).toNat t.toNat - 52)).2 := by
        unfold flScaleD flTimes100
        positivity
      have hN2 : flScaleN 0 (flTimes100 ((0:ℕ), flExp (0:Int).toNat t.toNat - 52)).2 = 0 := by
        unfold flScaleN
        simp
      rw [hN2, roundNearestEven_zero _ hD2]
      unfold flFloor
      simp
    rw [hz]
    have h00 : (100 * (0:Int)) / t = 0 := by simp
    rw [h00]
    omega
  · have hat : 0 < f.toNat := by omega
    have hcf : ((f.toNat : ℕ) : ℚ) = ((f : ℤ) : ℚ) := by
      exact_mod_cast congrArg (fun z : ℤ => (z : ℚ)) (Int.toNat_of_nonneg hf)
    have hct : ((t.toNat : ℕ) : ℚ) = ((t : ℤ) : ℚ) := by
      exact_mod_cast congrArg (fun z : ℤ => (z : ℚ)) (Int.toNat_of_nonneg ht.le)
    have hq1 : (0:ℚ) < (f:ℚ) / (t:ℚ) := by
      apply div_pos _ htq
      exact_mod_cast hfpos
    have hqle : (f:ℚ) / (t:ℚ) ≤ 1 := by
      rw [div_le_one htq]
      exact_mod_cast hft
    obtain ⟨hr1, hr2⟩ := fl53Pos_bounds f.toNat t.toNat hat hbt
    rw [hcf, hct] at hr1 hr2
    have heps : (2:ℚ) ^ (-52 : Int) = 1 / 2 ^ 52 := by norm_num
    rw [heps] at hr1 hr2
    have hrval := flRoundPair_val f.toNat t.toNat
    have hrpos : 0 < fl53Pos f.toNat t.toNat := by linarith
    have hm1 : 0 < (flRoundPair f.toNat t.toNat).1 := by
      rcases Nat.eq_zero_or_pos (flRoundPair f.toNat t.toNat).1 with h | h
      · rw [h] at hrval
        simp at hrval
        rw [← hrval] at hrpos
        exact absurd hrpos (by norm_num)
      · exact h
    have ha2 : 0 < (flTimes100 (flRoundPair f.toNat t.toNat)).1 := by
      have : (flTimes100 (flRoundPair f.toNat t.toNat)).1 =
          100 * (flRoundPair f.toNat t.toNat).1 * 2 ^ (flRoundPair f.toNat t.toNat).2.toNat := rfl
      rw [this]
      positivity
    have hb2 : 0 < (flTimes100 (flRoundPair f.toNat t.toNat)).2 := by
      have : (flTimes100 (flRoundPair f.toNat t.toNat)).2 =
          2 ^ (-(flRoundPair f.toNat t.toNat).2).toNat := rfl
      rw [this]
      positivity
    obtain ⟨hp1, hp2⟩ := fl53Pos_bounds (flTimes100 (flRoundPair f.toNat t.toNat)).1
      (flTimes100 (flRoundPair f.toNat t.toNat)).2 ha2 hb2
    rw [heps] at hp1 hp2
    have hxval := flTimes100_val (flRoundPair f.toNat t.toNat)
    rw [mul_assoc, hrval] at hxval
    rw [hxval] at hp1 hp2
    have hfinal : floorDoubleProgress f t =
        ⌊fl53Pos (flTimes100 (flRoundPair f.toNat t.toNat)).1
          (flTimes100 (flRoundPair f.toNat t.toNat)).2⌋ := by
      unfold floorDoubleProgress
      rw [flFloor_val, flRoundPair_val]
    rw [hfinal]
    have hX : (100:ℚ) * ((f:ℚ) / (t:ℚ)) = (100 * (f:ℚ)) / (t:ℚ) := by ring
    have hup : fl53Pos (flTimes100 (flRoundPair f.toNat t.toNat)).1
        (flTimes100 (flRoundPair f.toNat t.toNat)).2 ≤ (100 * (f:ℚ)) / (t:ℚ) + 1 := by
      nlinarith [hp2, hr2, hqle, hq1, hrpos]
    have hlo : (100 * (f:ℚ)) / (t:ℚ) - 1 ≤
        fl53Pos (flTimes100 (flRoundPair f.toNat t.toNat)).1
          (flTimes100 (flRoundPair f.toNat t.toNat)).2 := by
      nlinarith [hp1, hr1, hqle, hq1, hrpos]
    constructor
    · rw [← hE]
      have step := Int.floor_le_floor hlo
      rw [Int.floor_sub_one] at step
      omega
    · rw [← hE]
      have step := Int.floor_le_floor hup
      rw [Int.floor_add_one] at step
      omega

set_option maxRecDepth 100000 in
/-- C6 counterexample.  First half: starting from the initialized two-mine
world, the accepted flip of the mine at (1,1) explodes and converts the
chained mine at (2,1) into an explosion tile without touching the caches, so
in this reachable state flaggedMines plus the number of unflagged mine tiles
no longer equals totalMines.  Second half: with 29 of 100 mines flagged the
progress the program computes in double arithmetic is 28, not the exact
floor(flaggedMines/totalMines*100) = 29 the claim states - the double
nearest to 0.29 lies below it, and multiplying by 100 rounds to
28.999999999999996. -/
theorem mine_invariant_and_progress_counterexample :
    ¬((GameLogicSystem.requestTileAction 5
          (GameLogicSystem.initializeMineCountsCache gsTwoMines) "p" 1 1
          GameLogicSystem.TileAction.flip).2.flaggedMines +
        unflaggedMineCount (GameLogicSystem.requestTileAction 5
          (GameLogicSystem.initializeMineCountsCache gsTwoMines) "p" 1 1
          GameLogicSystem.TileAction.flip).2.tiles =
      (GameLogicSystem.requestTileAction 5
          (GameLogicSystem.initializeMineCountsCache gsTwoMines) "p" 1 1
          GameLogicSystem.TileAction.flip).2.totalMines)
    ∧ GameLogicSystem.getObfuscatedMineProgress gsProgress = 28
    ∧ ¬(GameLogicSystem.getObfuscatedMineProgress gsProgress =
        (100 * gsProgress.flaggedMines) / gsProgress.totalMines) := by
  refine ⟨by decide, by decide, by decide⟩

/-- C6 (amended): the mine-accounting identity
flaggedMines + (number of unflagged mine tiles) = totalMines holds right after
initializeMineCountsCache and is preserved by every flag action (explosions
may break it, as they convert mine tiles into explosion tiles without
updating the caches); checkGameEnd returns true iff
totalMines - flaggedMines <= 0; and when 0 < totalMines and
0 <= flaggedMines <= totalMines, the progress value the program computes in
double arithmetic lies within one of the exact integer quotient
(100 * flaggedMines) / totalMines - it can fall one below it at exact
percentage boundaries (29 of 100 yields 28), as the counterexample shows. -/
theorem mine_accounting_spec (gs : GameLogicState) (pid : String) (x y : Int) :
    ((GameLogicSystem.initializeMineCountsCache gs).flaggedMines +
        unflaggedMineCount (GameLogicSystem.initializeMineCountsCache gs).tiles =
      (GameLogicSystem.initializeMineCountsCache gs).totalMines)
    ∧ (gs.flaggedMines + unflaggedMineCount gs.tiles = gs.totalMines →
      (GameLogicSystem.handleTileFlag gs pid x y).2.flaggedMines +
          unflaggedMineCount (GameLogicSystem.handleTileFlag gs pid x y).2.tiles =
        (GameLogicSystem.handleTileFlag gs pid x y).2.totalMines)
    ∧ (GameLogicSystem.checkGameEnd gs = true ↔ gs.totalMines - gs.flaggedMines ≤ 0)
    ∧ (0 < gs.totalMines → 0 ≤ gs.flaggedMines → gs.flaggedMines ≤ gs.totalMines →
      (100 * gs.flaggedMines) / gs.totalMines - 1 ≤
          GameLogicSystem.getObfuscatedMineProgress gs ∧
        GameLogicSystem.getObfuscatedMineProgress gs ≤
          (100 * gs.flaggedMines) / gs.totalMines + 1) := by
  refine ⟨?_, ?_, ?_, ?_⟩
  · show ((gs.tiles.countP (fun e => e.2.type == TileType.mine && e.2.flagged) : Nat) : Int) +
      ((gs.tiles.countP (fun e => e.2.type == TileType.mine && !e.2.flagged) : Nat) : Int) =
      ((gs.tiles.countP (fun e => e.2.type == TileType.mine) : Nat) : Int)
    have := countP_split gs.tiles (fun e => e.2.type == TileType.mine) (fun e => e.2.flagged)
    omega
  · intro hinv
    rcases GameLogicSystem.handleTileFlag_cases gs pid x y with
      ⟨t, pc, pos, hget, hrev, hflag, hfp, hfl, _, heq⟩ | ⟨_, hsame⟩
    · rw [heq]
      have hc := countP_setTileL gs.tiles (x, y) t
        { t with flagged := true, flaggedBy := some pid }
        (fun tl => tl.type == TileType.mine && !tl.flagged) hget
      unfold unflaggedMineCount at hinv ⊢
      by_cases hty : t.type = TileType.mine
      · rw [if_pos hty]
        simp only [hty, hflag] at hc ⊢
        simp at hc
        simp only [updateGsPlayer, setGsTile]
        omega
      · have hbeq : (t.type == TileType.mine) = false := by
          cases hb : t.type == TileType.mine
          · rfl
          · exact absurd (by simpa using hb) hty
        rw [if_neg hty]
        simp only [hbeq] at hc ⊢
        simp at hc
        simp only [updateGsPlayer, setGsTile]
        omega
    · rw [hsame]
      exact hinv
  · simp [GameLogicSystem.checkGameEnd]
  · intro ht hf hft
    unfold GameLogicSystem.getObfuscatedMineProgress
    rw [if_pos ht]
    exact floorDoubleProgress_bounds gs.flaggedMines gs.totalMines ht hf hft

/-- C6 witness: in the initialized one-mine fixture, the accounting identity
holds after the accepted flag of the mine, and with one total mine and no
flagged mines the progress computed in double arithmetic lies within one of
the exact quotient (100*0)/1 = 0. -/
theorem mine_accounting_spec_witness :
    ((GameLogicSystem.handleTileFlag
        (GameLogicSystem.initializeMineCountsCache gsFlagTest) "p" 1 0).2.flaggedMines +
      unflaggedMineCount (GameLogicSystem.handleTileFlag
        (GameLogicSystem.initializeMineCountsCache gsFlagTest) "p" 1 0).2.tiles =
      (GameLogicSystem.handleTileFlag
        (GameLogicSystem.initializeMineCountsCache gsFlagTest) "p" 1 0).2.totalMines)
    ∧ ((100 * (GameLogicSystem.initializeMineCountsCache gsFlagTest).flaggedMines) /
          (GameLogicSystem.initializeMineCountsCache gsFlagTest).totalMines - 1 ≤
        GameLogicSystem.getObfuscatedMineProgress
          (GameLogicSystem.initializeMineCountsCache gsFlagTest) ∧
      GameLogicSystem.getObfuscatedMineProgress
          (GameLogicSystem.initializeMineCountsCache gsFlagTest) ≤
        (100 * (GameLogicSystem.initializeMineCountsCache gsFlagTest).flaggedMines) /
          (GameLogicSystem.initializeMineCountsCache gsFlagTest).totalMines + 1) := by
  have h := mine_accounting_spec (GameLogicSystem.initializeMineCountsCache gsFlagTest) "p" 1 0
  exact ⟨h.2.1 (by decide), h.2.2.2 (by decide) (by decide) (by decide)⟩

/-- C7 (evaluation at the failing input): six flip requests at the same
timestamp are all admitted by the rate limiter.  The general-cap check empties
the per-player history on every call (the splice runs before the filter that
was meant to re-fill the array), so the per-kind cap of five flips per second
never accumulates and the sixth flip is not rejected - contradicting the
claimed admit-iff-under-cap behaviour and the repository's own RateLimiter
unit test, which expects the sixth flip to be blocked. -/
theorem sixth_flip_within_one_second_admitted :
    (RateLimiter.runRequests
        [("flip", 0), ("flip", 0), ("flip", 0), ("flip", 0), ("flip", 0), ("flip", 0)]).1 =
      [true, true, true, true, true, true] := by
  decide

theorem sanitize_unrevealed_eq (t : Tile) (tx ty : Int) (ppos : PositionComponent)
    (hrev : t.revealed = false) :
    NetworkSystem.sanitizeTileForClient t tx ty ppos =
      (if !t.flagged &&
          !(decide ((tx - ppos.x).natAbs ≤ 1) && decide ((ty - ppos.y).natAbs ≤ 1)) then
        none
      else
        some { x := tx, y := ty, revealed := false, flagged := t.flagged,
               flaggedBy := t.flaggedBy, type := TileType.covered, number := none,
               exploded := none }) := by
  unfold NetworkSystem.sanitizeTileForClient
  rw [hrev]
  cases hfl : t.flagged <;>
    by_cases hax : (tx - ppos.x).natAbs ≤ 1 <;>
    by_cases hay : (ty - ppos.y).natAbs ≤ 1 <;>
    simp [hax, hay]

/-- C8: a tile is emitted to a client iff it is revealed, flagged, or within
Chebyshev distance 1 of the viewing player; every emitted unrevealed tile has
its kind reported as covered and its number and exploded fields withheld; and
the sanitized output of an unrevealed tile does not depend on its hidden kind,
number or exploded state (two unrevealed tiles agreeing on flagged and
flagged-by sanitize identically). -/
theorem sanitizeTileForClient_spec (t u : Tile) (tx ty : Int) (ppos : PositionComponent) :
    ((NetworkSystem.sanitizeTileForClient t tx ty ppos).isSome = true ↔
      (t.revealed = true ∨ t.flagged = true ∨
        ((tx - ppos.x).natAbs ≤ 1 ∧ (ty - ppos.y).natAbs ≤ 1)))
    ∧ (∀ s, t.revealed = false →
      NetworkSystem.sanitizeTileForClient t tx ty ppos = some s →
      s.type = TileType.covered ∧ s.number = none ∧ s.exploded = none)
    ∧ (t.revealed = false → u.revealed = false → t.flagged = u.flagged →
      t.flaggedBy = u.flaggedBy →
      NetworkSystem.sanitizeTileForClient t tx ty ppos =
        NetworkSystem.sanitizeTileForClient u tx ty ppos) := by
  refine ⟨?_, ?_, ?_⟩
  · cases hrev : t.revealed <;> cases hfl : t.flagged <;>
      by_cases hax : (tx - ppos.x).natAbs ≤ 1 <;>
      by_cases hay : (ty - ppos.y).natAbs ≤ 1 <;>
      simp [NetworkSystem.sanitizeTileForClient, hrev, hfl, hax, hay]
  · intro s hrev hs
    rw [sanitize_unrevealed_eq t tx ty ppos hrev] at hs
    by_cases hg : (!t.flagged &&
        !(decide ((tx - ppos.x).natAbs ≤ 1) && decide ((ty - ppos.y).natAbs ≤ 1))) = true
    · rw [if_pos hg] at hs
      cases hs
    · rw [if_neg hg] at hs
      injection hs with hs
      rw [← hs]
      exact ⟨rfl, rfl, rfl⟩
  · intro hrevt hrevu hfl hfb
    rw [sanitize_unrevealed_eq t tx ty ppos hrevt, sanitize_unrevealed_eq u tx ty ppos hrevu,
      hfl, hfb]

/-- C8 witness: a covered unflagged mine two tiles away from the viewer is
omitted from the payload; an adjacent covered mine is emitted with its kind
reported as covered and number and exploded withheld; and an unrevealed mine
and an unrevealed empty tile sanitize identically. -/
theorem sanitizeTileForClient_witness :
    ((NetworkSystem.sanitizeTileForClient
        { type := TileType.mine, revealed := false, flagged := false } 3 0
        { x := 0, y := 0 }).isSome = false)
    ∧ (∀ s, NetworkSystem.sanitizeTileForClient
          { type := TileType.mine, revealed := false, flagged := false } 1 0
          { x := 0, y := 0 } = some s →
        s.type = TileType.covered ∧ s.number = none ∧ s.exploded = none)
    ∧ NetworkSystem.sanitizeTileForClient
        { type := TileType.mine, revealed := false, flagged := false } 1 0
        { x := 0, y := 0 } =
      NetworkSystem.sanitizeTileForClient
        { type := TileType.empty, revealed := false, flagged := false } 1 0
        { x := 0, y := 0 } := by
  have h3 := sanitizeTileForClient_spec
    { type := TileType.mine, revealed := false, flagged := false }
    { type := TileType.empty, revealed := false, flagged := false } 3 0 { x := 0, y := 0 }
  have h1 := sanitizeTileForClient_spec
    { type := TileType.mine, revealed := false, flagged := false }
    { type := TileType.empty, revealed := false, flagged := false } 1 0 { x := 0, y := 0 }
  refine ⟨?_, fun s hs => h1.2.1 s rfl hs, h1.2.2 rfl rfl rfl rfl⟩
  cases hit : (NetworkSystem.sanitizeTileForClient
      { type := TileType.mine, revealed := false, flagged := false } 3 0
      { x := 0, y := 0 }).isSome
  · rfl
  · have := h3.1.mp hit
    rcases this with h | h | h
    · cases h
    · cases h
    · exact absurd h.1 (by decide)

/-- C10: a newly created player (a welcome that is not a reconnection) starts
with score 0, alive, connected, and a position equal to one of the generated
spawn points - both in the legacy index.ts handler (which also grants 3
starting flags) and in the ECS GameManager.createPlayerEntity path. -/
theorem new_player_initial_state (label : String) (name : Option String)
    (color : Option String) (spawns : List GameManager.SpawnPoint) (i : Nat)
    (h : i < spawns.length) (id username : String) (c s : Option String) :
    ((Legacy.createNewPlayer label name color spawns i).score = 0
    ∧ (Legacy.createNewPlayer label name color spawns i).alive = true
    ∧ (Legacy.createNewPlayer label name color spawns i).connected = true
    ∧ ∃ sp ∈ spawns, (Legacy.createNewPlayer label name color spawns i).x = sp.x ∧
        (Legacy.createNewPlayer label name color spawns i).y = sp.y)
    ∧ ((GameManager.createPlayerEntity spawns i id username c s).1.score = 0
    ∧ (GameManager.createPlayerEntity spawns i id username c s).1.alive = true
    ∧ (GameManager.createPlayerEntity spawns i id username c s).1.connected = true
    ∧ ∃ sp ∈ spawns, (GameManager.createPlayerEntity spawns i id username c s).2.x = sp.x ∧
        (GameManager.createPlayerEntity spawns i id username c s).2.y = sp.y) := by
  have hmem : spawns.getD i ⟨0, 0⟩ ∈ spawns := by
    rw [List.getD_eq_getElem spawns _ h]
    exact List.getElem_mem h
  exact ⟨⟨rfl, rfl, rfl, ⟨spawns.getD i ⟨0, 0⟩, hmem, rfl, rfl⟩⟩,
    ⟨rfl, rfl, rfl, ⟨spawns.getD i ⟨0, 0⟩, hmem, rfl, rfl⟩⟩⟩

/-- C10 witness: with a single spawn point (7, 9) and draw index 0, the new
player starts at (7, 9) with score 0, alive and connected, in both paths. -/
theorem new_player_initial_state_witness :
    ((Legacy.createNewPlayer "c1" (some "pat") none [⟨7, 9⟩] 0).score = 0
    ∧ (Legacy.createNewPlayer "c1" (some "pat") none [⟨7, 9⟩] 0).alive = true
    ∧ (Legacy.createNewPlayer "c1" (some "pat") none [⟨7, 9⟩] 0).connected = true
    ∧ ∃ sp ∈ ([⟨7, 9⟩] : List GameManager.SpawnPoint),
        (Legacy.createNewPlayer "c1" (some "pat") none [⟨7, 9⟩] 0).x = sp.x ∧
        (Legacy.createNewPlayer "c1" (some "pat") none [⟨7, 9⟩] 0).y = sp.y)
    ∧ ((GameManager.createPlayerEntity [⟨7, 9⟩] 0 "p1" "pat" none none).1.score = 0
    ∧ (GameManager.createPlayerEntity [⟨7, 9⟩] 0 "p1" "pat" none none).1.alive = true
    ∧ (GameManager.createPlayerEntity [⟨7, 9⟩] 0 "p1" "pat" none none).1.connected = true
    ∧ ∃ sp ∈ ([⟨7, 9⟩] : List GameManager.SpawnPoint),
        (GameManager.createPlayerEntity [⟨7, 9⟩] 0 "p1" "pat" none none).2.x = sp.x ∧
        (GameManager.createPlayerEntity [⟨7, 9⟩] 0 "p1" "pat" none none).2.y = sp.y) :=
  new_player_initial_state "c1" (some "pat") none [⟨7, 9⟩] 0 (by decide) "p1" "pat" none none

theorem property_foldl {σ α : Type} (P : σ → Prop) (step : σ → α → σ)
    (hstep : ∀ st a, P st → P (step st a)) :
    ∀ (cs : List α) (st : σ), P st → P (cs.foldl step st) := by
  intro cs
  induction cs with
  | nil => intro st h; exact h
  | cons a cs ih =>
    intro st h
    rw [List.foldl_cons]
    exact ih _ (hstep st a h)

theorem property_foldl_mem {σ α : Type} (P : σ → Prop) (step : σ → α → σ) :
    ∀ (cs : List α), (∀ st a, a ∈ cs → P st → P (step st a)) →
      ∀ (st : σ), P st → P (cs.foldl step st) := by
  intro cs
  induction cs with
  | nil => intro _ st h; exact h
  | cons a cs ih =>
    intro hstep st h
    rw [List.foldl_cons]
    exact ih (fun st b hb hP => hstep st b (List.mem_cons_of_mem a hb) hP) _
      (hstep st a (List.mem_cons_self a cs) h)

namespace GameManager

theorem mineAtB_registerTile (l : TileList) (p : Pos) (t : Tile)
    (ht : (t.type == TileType.mine) = false) (hnm : mineAtB l p = false) (q : Pos) :
    mineAtB (registerTile l p t) q = mineAtB l q := by
  unfold mineAtB
  rw [getTileL_registerTile]
  by_cases hq : q = p
  · rw [if_pos hq, hq]
    unfold mineAtB at hnm
    show (t.type == TileType.mine) = _
    rw [ht]
    exact hnm.symm
  · rw [if_neg hq]

theorem countAdjacentMines_congr (W : Int) (l l2 : TileList)
    (h : ∀ q, mineAtB l q = mineAtB l2 q) (x y : Int) :
    countAdjacentMines W l x y = countAdjacentMines W l2 x y := by
  unfold countAdjacentMines
  exact List.countP_congr (fun d _ => by rw [h (x + d.1, y + d.2)])

theorem countAdjacentMines_le_eight (W : Int) (l : TileList) (x y : Int) :
    countAdjacentMines W l x y ≤ 8 := by
  unfold countAdjacentMines
  calc neighborOffsets.countP _ ≤ neighborOffsets.length := List.countP_le_length _
  _ = 8 := by decide

theorem isNearSpawnPoint_false_iff (spawns : List SpawnPoint) (x y : Int) :
    isNearSpawnPoint spawns x y = false ↔
      ∀ s ∈ spawns, 2 < (x - s.x).natAbs + (y - s.y).natAbs := by
  unfold isNearSpawnPoint
  rw [← Bool.not_eq_true, List.any_eq_true]
  constructor
  · intro h s hs
    by_contra hle
    exact h ⟨s, hs, by simp; omega⟩
  · rintro h ⟨s, hs, hd⟩
    have := h s hs
    simp at hd
    omega

set_option maxHeartbeats 800000 in
theorem generateWorld_mineFar (W : Int) (spawns : List SpawnPoint)
    (mineCandidates flagCandidates : List Pos) :
    ∀ q u, getTileL (generateWorld W spawns mineCandidates flagCandidates) q = some u →
      u.type = TileType.mine → isNearSpawnPoint spawns q.1 q.2 = false := by
  have hreg : ∀ (l : TileList) (p : Pos) (t : Tile),
      (t.type = TileType.mine → isNearSpawnPoint spawns p.1 p.2 = false) →
      (∀ q u, getTileL l q = some u → u.type = TileType.mine →
        isNearSpawnPoint spawns q.1 q.2 = false) →
      ∀ q u, getTileL (registerTile l p t) q = some u → u.type = TileType.mine →
        isNearSpawnPoint spawns q.1 q.2 = false := by
    intro l p t hp hfar q u hget hm
    rw [getTileL_registerTile] at hget
    by_cases hq : q = p
    · rw [if_pos hq] at hget
      injection hget with hget
      rw [hq]
      exact hp (by rw [← hget] at hm; exact hm)
    · rw [if_neg hq] at hget
      exact hfar q u hget hm
  have h0 : ∀ q u, getTileL
      (spawns.foldl (fun l s => registerTile l (s.x, s.y) spawnTile) []) q = some u →
      u.type = TileType.mine → isNearSpawnPoint spawns q.1 q.2 = false := by
    apply property_foldl (fun l : TileList => ∀ q u, getTileL l q = some u →
      u.type = TileType.mine → isNearSpawnPoint spawns q.1 q.2 = false)
      (fun (l : TileList) (s : SpawnPoint) => registerTile l (s.x, s.y) spawnTile)
    · intro l s hfar
      exact hreg l (s.x, s.y) spawnTile (fun hmk => by cases hmk) hfar
    · intro q u hget _
      cases hget
  have h1 : ∀ q u, getTileL
      (placeMines spawns mineCandidates
        (spawns.foldl (fun l s => registerTile l (s.x, s.y) spawnTile) [])) q = some u →
      u.type = TileType.mine → isNearSpawnPoint spawns q.1 q.2 = false := by
    unfold placeMines
    apply property_foldl (fun l : TileList => ∀ q u, getTileL l q = some u →
      u.type = TileType.mine → isNearSpawnPoint spawns q.1 q.2 = false)
    · intro l c hfar
      dsimp only
      split
      · rename_i hcond
        refine hreg l c mineTile (fun _ => ?_) hfar
        simp only [Bool.and_eq_true, Bool.not_eq_true'] at hcond
        exact hcond.1.2
      · exact hfar
    · exact h0
  have h2 : ∀ q u, getTileL
      (placeFlagTokens spawns flagCandidates
        (placeMines spawns mineCandidates
          (spawns.foldl (fun l s => registerTile l (s.x, s.y) spawnTile) []))) q = some u →
      u.type = TileType.mine → isNearSpawnPoint spawns q.1 q.2 = false := by
    unfold placeFlagTokens
    apply property_foldl (fun l : TileList => ∀ q u, getTileL l q = some u →
      u.type = TileType.mine → isNearSpawnPoint spawns q.1 q.2 = false)
    · intro l c hfar
      dsimp only
      split
      · exact hreg l c flagTokenTile (fun hmk => by cases hmk) hfar
      · exact hfar
    · exact h1
  have h3 : ∀ q u, getTileL
      ((gridCoords W).foldl (firstPassStep W spawns)
        (placeFlagTokens spawns flagCandidates
          (placeMines spawns mineCandidates
            (spawns.foldl (fun l s => registerTile l (s.x, s.y) spawnTile) [])), [])).1
        q = some u →
      u.type = TileType.mine → isNearSpawnPoint spawns q.1 q.2 = false := by
    apply property_foldl
      (fun st : TileList × List (Pos × Nat) => ∀ q u, getTileL st.1 q = some u →
        u.type = TileType.mine → isNearSpawnPoint spawns q.1 q.2 = false)
      (firstPassStep W spawns)
    · intro st a hfar
      unfold firstPassStep
      split
      · exact hfar
      · split
        · exact hfar
        · dsimp only
          split
          · exact hfar
          · exact hreg st.1 a emptyTile (fun hmk => by cases hmk) hfar
    · exact h2
  have h4 : ∀ q u, getTileL
      (calculateNumbers W spawns
        (placeFlagTokens spawns flagCandidates
          (placeMines spawns mineCandidates
            (spawns.foldl (fun l s => registerTile l (s.x, s.y) spawnTile) [])))) q = some u →
      u.type = TileType.mine → isNearSpawnPoint spawns q.1 q.2 = false := by
    unfold calculateNumbers
    dsimp only
    apply property_foldl (fun l : TileList => ∀ q u, getTileL l q = some u →
      u.type = TileType.mine → isNearSpawnPoint spawns q.1 q.2 = false)
      (fun (l : TileList) (u : Pos × Nat) => registerTile l u.1 (numberedTile (u.2 : Int)))
    · intro st a hfar
      exact hreg st a.1 (numberedTile (a.2 : Int)) (fun hmk => by cases hmk) hfar
    · exact h3
  unfold generateWorld calculateNumbers
  exact h4

theorem mineAtB_false_of_hasTileL_false (l : TileList) (p : Pos)
    (h : hasTileL l p = false) : mineAtB l p = false := by
  unfold hasTileL at h
  unfold mineAtB
  cases hg : getTileL l p with
  | none => rfl
  | some t => rw [hg] at h; simp at h

theorem generateWorld_pre_noNumbered (spawns : List SpawnPoint)
    (mineCandidates flagCandidates : List Pos) :
    ∀ q u, getTileL
      (placeFlagTokens spawns flagCandidates
        (placeMines spawns mineCandidates
          (spawns.foldl (fun l s => registerTile l (s.x, s.y) spawnTile) []))) q = some u →
      u.type ≠ TileType.numbered := by
  have hreg : ∀ (l : TileList) (p : Pos) (t : Tile),
      t.type ≠ TileType.numbered →
      (∀ q u, getTileL l q = some u → u.type ≠ TileType.numbered) →
      ∀ q u, getTileL (registerTile l p t) q = some u → u.type ≠ TileType.numbered := by
    intro l p t hp hnn q u hget
    rw [getTileL_registerTile] at hget
    by_cases hq : q = p
    · rw [if_pos hq] at hget
      injection hget with hget
      rw [← hget]
      exact hp
    · rw [if_neg hq] at hget
      exact hnn q u hget
  have h0 : ∀ q u, getTileL
      (spawns.foldl (fun l s => registerTile l (s.x, s.y) spawnTile) []) q = some u →
      u.type ≠ TileType.numbered := by
    apply property_foldl (fun l : TileList => ∀ q u, getTileL l q = some u →
      u.type ≠ TileType.numbered)
      (fun (l : TileList) (s : SpawnPoint) => registerTile l (s.x, s.y) spawnTile)
    · intro l s hnn
      exact hreg l (s.x, s.y) spawnTile (fun hmk => by cases hmk) hnn
    · intro q u hget
      cases hget
  have h1 : ∀ q u, getTileL
      (placeMines spawns mineCandidates
        (spawns.foldl (fun l s => registerTile l (s.x, s.y) spawnTile) [])) q = some u →
      u.type ≠ TileType.numbered := by
    unfold placeMines
    apply property_foldl (fun l : TileList => ∀ q u, getTileL l q = some u →
      u.type ≠ TileType.numbered)
    · intro l c hnn
      dsimp only
      split
      · exact hreg l c mineTile (fun hmk => by cases hmk) hnn
      · exact hnn
    · exact h0
  unfold placeFlagTokens
  apply property_foldl (fun l : TileList => ∀ q u, getTileL l q = some u →
    u.type ≠ TileType.numbered)
  · intro l c hnn
    dsimp only
    split
    · exact hreg l c flagTokenTile (fun hmk => by cases hmk) hnn
    · exact hnn
  · exact h1

set_option maxHeartbeats 800000 in
theorem calculateNumbers_numbered_spec (W : Int) (spawns : List SpawnPoint) (l2 : TileList)
    (hnn : ∀ q u, getTileL l2 q = some u → u.type ≠ TileType.numbered) :
    (∀ q, mineAtB (calculateNumbers W spawns l2) q = mineAtB l2 q) ∧
    (∀ p u, getTileL (calculateNumbers W spawns l2) p = some u →
      u.type = TileType.numbered →
      ∃ n : Nat, u.number = some (n : Int) ∧ 1 ≤ n ∧ n ≤ 8 ∧
        countAdjacentMines W l2 p.1 p.2 = n) := by
  have hfp : (∀ q, mineAtB ((gridCoords W).foldl (firstPassStep W spawns) (l2, [])).1 q =
        mineAtB l2 q) ∧
      (∀ q u, getTileL ((gridCoords W).foldl (firstPassStep W spawns) (l2, [])).1 q = some u →
        u.type ≠ TileType.numbered) ∧
      (∀ e ∈ ((gridCoords W).foldl (firstPassStep W spawns) (l2, [])).2,
        e.2 = countAdjacentMines W l2 e.1.1 e.1.2 ∧ 0 < e.2 ∧ mineAtB l2 e.1 = false) := by
    apply property_foldl (fun st : TileList × List (Pos × Nat) =>
      (∀ q, mineAtB st.1 q = mineAtB l2 q) ∧
      (∀ q u, getTileL st.1 q = some u → u.type ≠ TileType.numbered) ∧
      (∀ e ∈ st.2, e.2 = countAdjacentMines W l2 e.1.1 e.1.2 ∧ 0 < e.2 ∧
        mineAtB l2 e.1 = false))
      (firstPassStep W spawns)
    · intro st p hI
      obtain ⟨hma, hn1, hel⟩ := hI
      unfold firstPassStep
      split
      · exact ⟨hma, hn1, hel⟩
      · rename_i hocc
        have hocc' : hasTileL st.1 p = false := by simpa using hocc
        have hmb : mineAtB st.1 p = false := mineAtB_false_of_hasTileL_false st.1 p hocc'
        split
        · exact ⟨hma, hn1, hel⟩
        · dsimp only
          split
          · rename_i hpos
            refine ⟨hma, hn1, ?_⟩
            intro e he
            rw [List.mem_append] at he
            cases he with
            | inl h => exact hel e h
            | inr h =>
              rw [List.mem_singleton] at h
              subst h
              refine ⟨?_, hpos, ?_⟩
              · show countAdjacentMines W st.1 p.1 p.2 = countAdjacentMines W l2 p.1 p.2
                exact countAdjacentMines_congr W st.1 l2 hma p.1 p.2
              · show mineAtB l2 p = false
                rw [← hma p]
                exact hmb
          · refine ⟨?_, ?_, hel⟩
            · intro q
              rw [mineAtB_registerTile st.1 p emptyTile rfl hmb q]
              exact hma q
            · intro q u hget hty
              rw [getTileL_registerTile] at hget
              by_cases hq : q = p
              · rw [if_pos hq] at hget
                injection hget with hget
                rw [← hget] at hty
                cases hty
              · rw [if_neg hq] at hget
                exact hn1 q u hget hty
    · refine ⟨fun q => rfl, hnn, ?_⟩
      intro e he
      cases he
  unfold calculateNumbers
  dsimp only
  apply property_foldl_mem (fun l : TileList =>
      (∀ q, mineAtB l q = mineAtB l2 q) ∧
      (∀ p u, getTileL l p = some u → u.type = TileType.numbered →
        ∃ n : Nat, u.number = some (n : Int) ∧ 1 ≤ n ∧ n ≤ 8 ∧
          countAdjacentMines W l2 p.1 p.2 = n))
    (fun (l : TileList) (u : Pos × Nat) => registerTile l u.1 (numberedTile (u.2 : Int)))
    ((gridCoords W).foldl (firstPassStep W spawns) (l2, [])).2
  · intro l e he hI
    obtain ⟨hma, hnum⟩ := hI
    obtain ⟨heq, hpos, hmb⟩ := hfp.2.2 e he
    constructor
    · intro q
      rw [mineAtB_registerTile l e.1 (numberedTile (e.2 : Int)) rfl
        ((hma e.1).trans hmb) q]
      exact hma q
    · intro p u hget hty
      rw [getTileL_registerTile] at hget
      by_cases hq : p = e.1
      · rw [if_pos hq] at hget
        injection hget with hget
        refine ⟨e.2, ?_, hpos, ?_, ?_⟩
        · rw [← hget]
          rfl
        · rw [heq]
          exact countAdjacentMines_le_eight W l2 e.1.1 e.1.2
        · rw [hq]
          exact heq.symm
      · rw [if_neg hq] at hget
        exact hnum p u hget hty
  · exact ⟨hfp.1, fun p u hget hty => absurd hty (hfp.2.1 p u hget)⟩


set_option maxHeartbeats 1600000 in
/-- C9: after GameManager.generateWorld completes, every numbered tile carries
a number between 1 and 8 equal to the count of mine tiles in the in-bounds
part of its 8-neighborhood of the generated world (out-of-bounds neighbors
count as non-mine), and every mine tile lies at Manhattan distance strictly
greater than 2 from every spawn point, so no mine is on a spawn point or
within distance 2 of one. -/
theorem generateWorld_numbers_and_spawn_safety (W : Int) (spawns : List SpawnPoint)
    (mineCandidates flagCandidates : List Pos) :
    (∀ p u, getTileL (generateWorld W spawns mineCandidates flagCandidates) p = some u →
      u.type = TileType.numbered →
      ∃ n : Nat, u.number = some (n : Int) ∧ 1 ≤ n ∧ n ≤ 8 ∧
        countAdjacentMines W (generateWorld W spawns mineCandidates flagCandidates)
          p.1 p.2 = n) ∧
    (∀ p u, getTileL (generateWorld W spawns mineCandidates flagCandidates) p = some u →
      u.type = TileType.mine →
      ∀ s ∈ spawns, 2 < (p.1 - s.x).natAbs + (p.2 - s.y).natAbs) := by
  have hspec := calculateNumbers_numbered_spec W spawns
    (placeFlagTokens spawns flagCandidates
      (placeMines spawns mineCandidates
        (spawns.foldl (fun l s => registerTile l (s.x, s.y) spawnTile) [])))
    (generateWorld_pre_noNumbered spawns mineCandidates flagCandidates)
  have hgen : generateWorld W spawns mineCandidates flagCandidates =
      calculateNumbers W spawns
        (placeFlagTokens spawns flagCandidates
          (placeMines spawns mineCandidates
            (spawns.foldl (fun l s => registerTile l (s.x, s.y) spawnTile) []))) := rfl
  constructor
  · intro p u hget hty
    rw [hgen] at hget
    obtain ⟨n, h1, h2, h3, h4⟩ := hspec.2 p u hget hty
    refine ⟨n, h1, h2, h3, ?_⟩
    rw [hgen, countAdjacentMines_congr W _ _ hspec.1 p.1 p.2]
    exact h4
  · intro p u hget hty s hs
    have hfar := generateWorld_mineFar W spawns mineCandidates flagCandidates p u hget hty
    exact (isNearSpawnPoint_false_iff spawns p.1 p.2).mp hfar s hs

end GameManager

set_option maxRecDepth 8000 in
set_option maxHeartbeats 1600000 in
/-- Witness for the world-generation theorem at the concrete fixture world
wGenTest: the tile at (2,2) is numbered 1 with exactly one adjacent mine, and
the mine at (3,3) is at Manhattan distance 6 > 2 from the spawn point (0,0). -/
theorem generateWorld_numbers_and_spawn_safety_witness :
    (∃ n : Nat, (GameManager.numberedTile 1).number = some (n : Int) ∧ 1 ≤ n ∧ n ≤ 8 ∧
      GameManager.countAdjacentMines 5 wGenTest 2 2 = n) ∧
    2 < (((3 : Int), (3 : Int)).1 - (GameManager.SpawnPoint.mk 0 0).x).natAbs +
        (((3 : Int), (3 : Int)).2 - (GameManager.SpawnPoint.mk 0 0).y).natAbs := by
  constructor
  · exact (GameManager.generateWorld_numbers_and_spawn_safety 5 [⟨0, 0⟩]
      [(3, 3), (0, 1)] [(4, 0)]).1 (2, 2) (GameManager.numberedTile 1) (by decide) rfl
  · exact (GameManager.generateWorld_numbers_and_spawn_safety 5 [⟨0, 0⟩]
      [(3, 3), (0, 1)] [(4, 0)]).2 (3, 3) GameManager.mineTile (by decide) rfl
      ⟨0, 0⟩ (by decide)
